import Mathlib

/-!
# Player pool query engine of `cmd/mmlogicapi/apisrv/apisrv.go`

A shallow embedding of `applyFilter`, `GetPlayerPool`, `allIgnoreLists` and the
slice helpers `intersection`, `union`, `difference`, followed by lemmas on each
loop and by one theorem per claim of the specification.

Conventions of the embedding:

* a Go `map[string]T` is an association list with pairwise distinct keys, kept
  in insertion order; `range` over a map visits the entries in that order (Go
  leaves the order unspecified);
* Go slices are lists, `nil` and the empty slice are both `[]`;
* `int` and `int64` are `Int` (no value in the modelled code comes near 2^63);
* the Redis connection is a state machine `Redis σ`; every `redisConn.Do` of
  `applyFilter` is recorded in a call log;
* logging, metrics and wall-clock timing are left out.
-/

namespace OpenMatch

/-! ## Go maps -/

/-- Go `map[string]α`: association list, distinct keys, insertion order. -/
abbrev GoMap (α : Type) := List (String × α)

namespace GoMap

/-- The comma-ok lookup `_, ok := m[k]`. -/
def has {α : Type} (m : GoMap α) (k : String) : Bool :=
  m.any (fun e => e.1 == k)

/-- The lookup `v, ok := m[k]`. -/
def get? {α : Type} (m : GoMap α) (k : String) : Option α :=
  (m.find? (fun e => e.1 == k)).map Prod.snd

/-- The assignment `m[k] = v`. -/
def set {α : Type} : GoMap α → String → α → GoMap α
  | [], k, v => [(k, v)]
  | (k', v') :: rest, k, v =>
    if k' = k then (k, v) :: rest else (k', v') :: set rest k v

/-- The keys visited by `for k := range m`. -/
def keys {α : Type} (m : GoMap α) : List String :=
  m.map Prod.fst

end GoMap

/-! ## Slice helpers (`apisrv.go` lines 602-663) -/

/-- The loop `for _, v := range a { hash[v] = true }`. -/
def hashOf (hash : GoMap Bool) (a : List String) : GoMap Bool :=
  a.foldl (fun h v => h.set v true) hash

/-- Go `intersection(a, b)`: the elements of `b`, in order, that are keys of the
hash built from `a`. -/
def intersection (a b : List String) : List String :=
  let hash := hashOf [] a
  b.foldl (fun out v => if hash.has v then out ++ [v] else out) []

/-- Go `union(a, b)`: the keys of the hash built from `a` and then `b`. -/
def union (a b : List String) : List String :=
  let hash := hashOf (hashOf [] a) b
  hash.keys.foldl (fun out k => out ++ [k]) []

/-- The loop `for i := 0; i < len(out); i++` of `difference`. When `out[i]` is a
key of `hash` the last element is copied to index `i` and the slice is shortened
by one; in both cases the next iteration looks at index `i + 1`. The first
argument bounds the number of iterations; `len(a)` always suffices since `i`
grows by one per iteration and `len(out)` never grows. -/
def differenceLoop (hash : GoMap Bool) : Nat → Nat → List String → List String
  | 0, _, out => out
  | fuel + 1, i, out =>
    if i < out.length then
      if hash.has (out.getD i "") then
        differenceLoop hash fuel (i + 1) ((out.set i (out.getLastD "")).dropLast)
      else
        differenceLoop hash fuel (i + 1) out
    else out

/-- Go `difference(a, b)`. -/
def difference (a b : List String) : List String :=
  let out := [] ++ a
  let hash := hashOf [] b
  differenceLoop hash out.length 0 out

/-! ## Messages of `mmlogic.proto` used by the engine -/

/-- Message `Stats`; the wall-clock field `Elapsed` is left out. -/
structure Stats where
  Count : Int
  deriving DecidableEq, Repr

/-- Message `Filter.FilterSpec`. -/
structure FilterSpec where
  Field : String
  Minv : Int
  Maxv : Int
  deriving DecidableEq, Repr

/-- Message `Filter`. -/
structure Filter where
  Id : String
  FilterSpec : OpenMatch.FilterSpec
  Stats : Option OpenMatch.Stats
  deriving DecidableEq, Repr

/-- Message `Player.Property`. -/
structure Player_Property where
  Name : String
  Value : Int
  deriving DecidableEq, Repr

/-- Message `Player`. -/
structure Player where
  Id : String
  Properties : List Player_Property
  deriving DecidableEq, Repr

/-- Message `Roster`. -/
structure Roster where
  Id : String
  Players : List Player
  deriving DecidableEq, Repr

/-- Message `PlayerPool`, the request and also the unit sent on the stream. -/
structure PlayerPool where
  Id : String
  Filters : List Filter
  Stats : Option OpenMatch.Stats
  Roster : List OpenMatch.Roster
  deriving DecidableEq, Repr

/-! ## Collaborators: Redis, configuration, ignore lists, the stream -/

/-- A command passed to `redisConn.Do` by `applyFilter`. -/
inductive Cmd where
  | ZCOUNT (key : String) (min : Int) (max : String)
  | ZRANGEBYSCORE (key : String) (min : Int) (max : String) (offset count : Int)
  deriving DecidableEq, Repr

/-- The Redis connection as a state machine over `σ`. `zcount` is
`redis.Int64(redisConn.Do("ZCOUNT", key, min, max))`; `zrangebyscore` is the
reply of `redisConn.Do("ZRANGEBYSCORE", key, min, max, "WITHSCORES", "LIMIT",
offset, count)` as a sequence of (member, score) pairs. -/
structure Redis (σ : Type) where
  zcount : σ → String → Int → String → Except String Int × σ
  zrangebyscore : σ → String → Int → String → Int → Int →
    Except String (List (String × Int)) × σ

/-- The configuration keys read by the engine. -/
structure Config where
  /-- Key `redis.queryArgs.count`. -/
  queryArgsCount : Int
  /-- Key `redis.results.pageSize`. -/
  resultsPageSize : Int
  /-- Key `ignoreLists`, as returned by `GetStringMapString`. -/
  ignoreLists : GoMap String

/-- The call `ignorelist.Retrieve(redisConn, il, time.Now().Unix())`, a function
of another package, taken as a parameter: list name to ids or error. -/
abbrev Retrieve := String → Except String (List String)

/-- The call `stream.Send`: given the number of pages already delivered and the
page, the transport error if any. -/
abbrev Stream := Nat → PlayerPool → Option String

/-! ## `applyFilter` (lines 292-386) -/

/-- The string `maxv` of `applyFilter`: `strconv.FormatInt(f.Maxv, 10)`, replaced
by `"+inf"` when `f.Maxv == 0`. -/
def maxvArg (f : FilterSpec) : String :=
  if f.Maxv = 0 then "+inf" else toString f.Maxv

/-- The conversion `redis.Int64Map`: the map of the reply and the error; on
error the map is nil. -/
def int64Map (reply : Except String (List (String × Int))) : GoMap Int × Option String :=
  match reply with
  | .ok kvs => (kvs.foldl (fun m kv => m.set kv.1 kv.2) [], none)
  | .error e => ([], some e)

/-- The inner loop `for k, v := range results`: every key already in `pool`
decrements `offset`, then `pool[k] = v`. -/
def mergeResults (results : GoMap Int) (pool : GoMap Int) (offset : Int) : GoMap Int × Int :=
  results.foldl
    (fun (acc : GoMap Int × Int) kv =>
      (acc.1.set kv.1 kv.2, if acc.1.has kv.1 then acc.2 - 1 else acc.2))
    (pool, offset)

/-- The loop `for len(pool) == offset` of `applyFilter`. A fetch error is only
logged: the loop goes on with `results` nil. The first argument bounds the
number of fetches; `none` means the bound was reached with the loop condition
still true. -/
def fetchLoop {σ : Type} (r : Redis σ) (cnt : Int) (f : FilterSpec) (maxv : String) :
    Nat → σ → List Cmd → Int → GoMap Int → Option (GoMap Int × σ × List Cmd)
  | 0, st, calls, offset, pool =>
    if (pool.length : Int) = offset then none else some (pool, st, calls)
  | fuel + 1, st, calls, offset, pool =>
    if (pool.length : Int) = offset then
      let reply := r.zrangebyscore st f.Field f.Minv maxv offset cnt
      let results := (int64Map reply.1).1
      let offset1 := offset + cnt
      let merged := mergeResults results pool offset1
      fetchLoop r cnt f maxv fuel reply.2
        (calls ++ [Cmd.ZRANGEBYSCORE f.Field f.Minv maxv offset cnt]) merged.2 merged.1
    else some (pool, st, calls)

/-- Severity of the log line about the probe count (lines 332-337). -/
inductive CountLog where
  | info
  | warn
  deriving DecidableEq, Repr

/-- What `applyFilter` hands back: the pair `(map[string]int64, error)` with
`none` for the nil map and for the nil error, the connection state, the
commands issued, and the severity of the count log line when one was written. -/
structure FilterReturn (σ : Type) where
  results : Option (GoMap Int)
  err : Option String
  st : σ
  calls : List Cmd
  countLog : Option CountLog

/-- Go `applyFilter`. `fuel` bounds the fetches of the chunk loop. -/
def applyFilter {σ : Type} (r : Redis σ) (cfg : Config) (fuel : Nat) (st : σ)
    (filter : Filter) : Option (FilterReturn σ) :=
  let f := filter.FilterSpec
  let maxv := maxvArg f
  let probe := r.zcount st f.Field f.Minv maxv
  let calls := [Cmd.ZCOUNT f.Field f.Minv maxv]
  match probe.1 with
  | .error e => some ⟨none, some e, probe.2, calls, none⟩
  | .ok count =>
    if count = 0 ∨ count > 500000 then
      some ⟨none,
        some "Number of player this filter applies to is either too large or too small, ignoring",
        probe.2, calls, none⟩
    else
      let lvl := if count < 100000 then CountLog.info else CountLog.warn
      (fetchLoop r cfg.queryArgsCount f maxv fuel probe.2 calls 0 []).map
        (fun out => ⟨some out.1, none, out.2.1, out.2.2, some lvl⟩)

/-! ## `allIgnoreLists` (lines 576-600) -/

/-- What `allIgnoreLists` returns: the named results `allIgnored` and `err`, and
the counts written by the log line "Amount of overlap (this should never
decrease)". -/
structure IgnoreReturn where
  allIgnored : List String
  err : Option String
  logged : List Nat
  deriving DecidableEq, Repr

/-- The loop `for _, il := range s.cfg.GetStringMapString("ignoreLists")`.
`.error e` is `panic(err)`. Inside the body both `thisIl, err := ...` and
`allIgnored := union(allIgnored, thisIl)` declare new variables whose scope is
that one iteration; the right-hand side of the second reads the named result
`allIgnored`, which is never assigned. The new variable is only logged. -/
def allIgnoreListsLoop (retrieve : Retrieve) :
    GoMap String → List String → Option String → List Nat → Except String IgnoreReturn
  | [], allIgnored, err, logged => .ok ⟨allIgnored, err, logged⟩
  | il :: rest, allIgnored, err, logged =>
    match retrieve il.2 with
    | .error e => .error e
    | .ok thisIl =>
      let allIgnored1 := union allIgnored thisIl
      allIgnoreListsLoop retrieve rest allIgnored err (logged ++ [allIgnored1.length])

/-- Go `allIgnoreLists`; the named results start as nil. -/
def allIgnoreLists (retrieve : Retrieve) (cfg : Config) : Except String IgnoreReturn :=
  allIgnoreListsLoop retrieve cfg.ignoreLists [] none []

/-! ## `GetPlayerPool` (lines 393-516) -/

/-- How a call of `GetPlayerPool` ends. -/
inductive Exit where
  | returned (err : Option String)
  | panicked (msg : String)
  deriving DecidableEq, Repr

/-- What a call of `GetPlayerPool` does: the pages delivered on the stream in
order, the Redis commands issued by its `applyFilter` calls in order, and how it
ended. -/
structure Outcome where
  sent : List PlayerPool
  calls : List Cmd
  exit : Exit
  deriving DecidableEq, Repr

/-- The variables of the filter loop: the filters visited so far (with their
`Stats` set), `filteredRosters`, `filteredResults`, `overlap`, the connection
state and the commands issued. -/
structure FilterLoopState (σ : Type) where
  filters : List Filter
  filteredRosters : GoMap (List String)
  filteredResults : GoMap (GoMap Int)
  overlap : List String
  st : σ
  calls : List Cmd

/-- How the filter loop ends: at the send of line 433, with `pool.Filters`, the
`results` of the filter that caused it and the commands issued; or after the
last filter. -/
inductive FilterLoopExit (σ : Type) where
  | shortCircuit (filters : List Filter) (results : GoMap Int) (calls : List Cmd)
  | finished (s : FilterLoopState σ)

/-- The loop `for _, thisFilter := range pool.Filters` (lines 407-455). -/
def filterLoop {σ : Type} (r : Redis σ) (cfg : Config) (fuel : Nat) :
    List Filter → FilterLoopState σ → Option (FilterLoopExit σ)
  | [], s => some (.finished s)
  | thisFilter :: rest, s =>
    match applyFilter r cfg fuel s.st thisFilter with
    | none => none
    | some ret =>
      let f := thisFilter.FilterSpec
      let results := ret.results.getD []
      let thisFilter1 : Filter := { thisFilter with Stats := some ⟨results.length⟩ }
      if ret.err.isSome ∧ results.length = 0 then
        some (.shortCircuit (s.filters ++ thisFilter1 :: rest) results (s.calls ++ ret.calls))
      else
        let m := results.keys
        filterLoop r cfg fuel rest
          { filters := s.filters ++ [thisFilter1]
            filteredRosters := s.filteredRosters.set f.Field m
            filteredResults := s.filteredResults.set f.Field results
            overlap := m
            st := ret.st
            calls := s.calls ++ ret.calls }

/-- The loop `for field, thesePlayers := range filteredRosters` (lines 458-463). -/
def intersectAll (filteredRosters : GoMap (List String)) (overlap : List String) :
    List String :=
  filteredRosters.foldl (fun ov e => intersection ov e.2) overlap

/-- The loop `for field, fr := range filteredResults` building
`player.Properties` (lines 490-494). -/
def playerProperties (filteredResults : GoMap (GoMap Int)) (pID : String) :
    List Player_Property :=
  filteredResults.foldl
    (fun props e =>
      match e.2.get? pID with
      | some value => props ++ [⟨e.1, value⟩]
      | none => props)
    []

/-- The value `int(math.Ceil(float64(n) / float64(pageSize)))`. It is read only
inside the page loop, which panics on `i%pageSize` before reading it when
`pageSize` is 0; 0 stands for it in that case. -/
def pageCountOf (n : Nat) (pageSize : Int) : Int :=
  if pageSize = 0 then 0 else -(Int.fdiv (-(n : Int)) pageSize)

/-- The message `poolChunk` of lines 499-505: the page named
`fmt.Sprintf("%v.page%v%v", pool.Id, i/pageSize, pageCount)` carrying the one
roster `partialRoster` with the players buffered so far. -/
def pageOf (pool : PlayerPool) (pageSize pageCount : Int) (i : Nat) (players : List Player) :
    PlayerPool :=
  { Id := pool.Id ++ ".page" ++ toString (Int.tdiv (i : Int) pageSize) ++ toString pageCount
    Filters := pool.Filters
    Stats := pool.Stats
    Roster := [⟨pool.Id ++ ".partialRoster", players⟩] }

/-- The loop `for i := 0; i < len(playerList); i++` (lines 485-511), started at
index `i` with the rest of `playerList`, the players buffered in
`partialRoster` and the pages delivered so far. -/
def pageLoop (stream : Stream) (pool : PlayerPool) (pageSize pageCount : Int)
    (filteredResults : GoMap (GoMap Int)) :
    List String → Nat → List Player → List PlayerPool → List PlayerPool × Exit
  | [], _, _, sent => (sent, .returned none)
  | pID :: rest, i, players, sent =>
    let player : Player := ⟨pID, playerProperties filteredResults pID⟩
    let players1 := players ++ [player]
    if pageSize = 0 then (sent, .panicked "runtime error: integer divide by zero")
    else if Int.tmod (i : Int) pageSize = 0 then
      let poolChunk := pageOf pool pageSize pageCount i players1
      match stream sent.length poolChunk with
      | some err => (sent, .returned (some err))
      | none =>
        pageLoop stream pool pageSize pageCount filteredResults rest (i + 1) []
          (sent ++ [poolChunk])
    else
      pageLoop stream pool pageSize pageCount filteredResults rest (i + 1) players1 sent

/-- Go `GetPlayerPool`. `fuel` bounds the fetches of each `applyFilter` call;
`none` means some chunk loop was still running at the bound. -/
def GetPlayerPool {σ : Type} (r : Redis σ) (cfg : Config) (retrieve : Retrieve)
    (fuel : Nat) (st : σ) (pool : PlayerPool) (stream : Stream) : Option Outcome :=
  match filterLoop r cfg fuel pool.Filters ⟨[], [], [], [], st, []⟩ with
  | none => none
  | some (.shortCircuit filters results calls) =>
    let pool1 : PlayerPool :=
      { pool with Filters := filters, Stats := some ⟨results.length⟩, Roster := [] }
    match stream 0 pool1 with
    | some err => some ⟨[], calls, .returned (some err)⟩
    | none => some ⟨[pool1], calls, .returned none⟩
  | some (.finished s) =>
    let overlap := intersectAll s.filteredRosters s.overlap
    match allIgnoreLists retrieve cfg with
    | .error e => some ⟨[], s.calls, .panicked e⟩
    | .ok ilr =>
      let il := ilr.allIgnored
      let playerList := difference overlap il
      let pageSize := cfg.resultsPageSize
      let pageCount := pageCountOf playerList.length pageSize
      let pool1 : PlayerPool :=
        { pool with Filters := s.filters, Stats := some ⟨playerList.length⟩ }
      let out := pageLoop stream pool1 pageSize pageCount s.filteredResults playerList 0 [] []
      some ⟨out.1, s.calls, out.2⟩

/-- The player ids a page carries: those of all its rosters, in order. -/
def pageIds (p : PlayerPool) : List String :=
  (p.Roster.map (fun ro => ro.Players.map Player.Id)).flatten

/-- The ids delivered by a run, page after page. -/
def sentIds (o : Outcome) : List String :=
  (o.sent.map pageIds).flatten

/-- The number of players each delivered page carries. -/
def pageSizes (sent : List PlayerPool) : List Nat :=
  sent.map (fun p => (pageIds p).length)

/-- The value of `overlap` after the loop of lines 458-463, when the filter loop
ran to its end. -/
def overlapOf {σ : Type} (r : Redis σ) (cfg : Config) (fuel : Nat) (st : σ)
    (pool : PlayerPool) : Option (List String) :=
  match filterLoop r cfg fuel pool.Filters ⟨[], [], [], [], st, []⟩ with
  | some (.finished s) => some (intersectAll s.filteredRosters s.overlap)
  | _ => none

/-- The value of `playerList` (line 470), when the filter loop ran to its end
and `allIgnoreLists` returned. -/
def playerListOf {σ : Type} (r : Redis σ) (cfg : Config) (retrieve : Retrieve)
    (fuel : Nat) (st : σ) (pool : PlayerPool) : Option (List String) :=
  match overlapOf r cfg fuel st pool, allIgnoreLists retrieve cfg with
  | some overlap, .ok ilr => some (difference overlap ilr.allIgnored)
  | _, _ => none

/-- The `results` the filter loop obtains from `applyFilter`, filter by filter,
when it runs to its end from connection state `st`. -/
def filterResultsOf {σ : Type} (r : Redis σ) (cfg : Config) (fuel : Nat) :
    List Filter → σ → Option (List (GoMap Int))
  | [], _ => some []
  | thisFilter :: rest, st =>
    match applyFilter r cfg fuel st thisFilter with
    | none => none
    | some ret =>
      if ret.err.isSome ∧ (ret.results.getD []).length = 0 then none
      else (filterResultsOf r cfg fuel rest ret.st).map (fun rs => ret.results.getD [] :: rs)

/-- The distance from index `i` to the next index divisible by `s`: the page
loop started at index `i` sends its next page after `gap s i` further players. -/
def gap (s i : Nat) : Nat := (s - i % s) % s

/-! ## Concrete stores and requests used in the examples -/

/-- Decimal digits to a number; `none` when the list is empty or has a
character that is not a digit. -/
def parseNat (cs : List Char) : Option Nat :=
  if cs = [] then none
  else cs.foldl
    (fun acc c => acc.bind (fun n => if c.isDigit then some (10 * n + (c.toNat - 48)) else none))
    (some 0)

/-- A decimal integer as written by `strconv.FormatInt`. -/
def parseInt (s : String) : Option Int :=
  match s.data with
  | '-' :: cs => (parseNat cs).map (fun n => -(n : Int))
  | cs => (parseNat cs).map Int.ofNat

/-- Redis score test `min <= v <= max`, where `max` is `"+inf"` or a decimal
integer; `none` when `max` is neither. -/
def scoreInRange (min : Int) (max : String) (v : Int) : Option Bool :=
  if max = "+inf" then some (decide (min ≤ v))
  else (parseInt max).map (fun m => decide (min ≤ v) && decide (v ≤ m))

/-- The members of a sorted set with score in `[min, max]`, in index order. -/
def rangeHits (index : List (String × Int)) (min : Int) (max : String) :
    Except String (List (String × Int)) :=
  if (scoreInRange min max 0).isNone then .error "ERR min or max is not a float"
  else .ok (index.filter (fun e => scoreInRange min max e.2 = some true))

/-- The clause `LIMIT offset count` of Redis: nothing for a negative offset, all
from `offset` for a negative count. -/
def limit (hits : List (String × Int)) (offset count : Int) : List (String × Int) :=
  if offset < 0 then []
  else if count < 0 then hits.drop offset.toNat
  else (hits.drop offset.toNat).take count.toNat

/-- A Redis whose sorted sets never change and whose calls never fail at the
transport: `index key` is the sorted set at `key`, ordered by score. -/
def sortedSetStore (index : String → List (String × Int)) : Redis Unit where
  zcount := fun st key min max =>
    ((rangeHits (index key) min max).map (fun hits => (hits.length : Int)), st)
  zrangebyscore := fun st key min max offset count =>
    ((rangeHits (index key) min max).map (fun hits => limit hits offset count), st)

/-- The store `sortedSetStore index` behind a connection that breaks at the
range fetch number `failAt` (counted from 0); the state counts the range
fetches made. -/
def flakyStore (index : String → List (String × Int)) (failAt : Nat) : Redis Nat where
  zcount := fun st key min max =>
    (((sortedSetStore index).zcount () key min max).1, st)
  zrangebyscore := fun st key min max offset count =>
    (if st = failAt then .error "read tcp: connection reset by peer"
     else ((sortedSetStore index).zrangebyscore () key min max offset count).1, st + 1)

/-- A Redis that cannot be reached: every call fails at the transport. -/
def downStore : Redis Unit where
  zcount := fun st _ _ _ => (.error "dial tcp: connection refused", st)
  zrangebyscore := fun st _ _ _ _ _ => (.error "dial tcp: connection refused", st)

/-- A Redis that answers every ZCOUNT with `count` and every range fetch with
the one page `page`. -/
def cannedStore (count : Int) (page : List (String × Int)) : Redis Unit where
  zcount := fun st _ _ _ => (.ok count, st)
  zrangebyscore := fun st _ _ _ _ _ => (.ok page, st)

/-- The stream on which no send fails. -/
def okStream : Stream := fun _ _ => none

/-- No ignore list holds anything. -/
def noIgnored : Retrieve := fun _ => .ok []

/-- The index of the scenario of the spec: attributes `rating` and `region`. -/
def scenarioIndex : String → List (String × Int)
  | "rating" => [("C", 1200), ("A", 1500), ("B", 1800), ("E", 2500)]
  | "region" => [("B", 1), ("C", 1), ("D", 1), ("A", 2)]
  | _ => []

/-- The pool of the scenario: `rating` in [1000, 2000] and `region` in [1, 1]. -/
def scenarioPool : PlayerPool :=
  { Id := "pool"
    Filters := [⟨"f1", ⟨"rating", 1000, 2000⟩, none⟩, ⟨"f2", ⟨"region", 1, 1⟩, none⟩]
    Stats := none
    Roster := [] }

/-- A pool with the single filter `rating` in [1000, 2000]. -/
def ratingPool : PlayerPool :=
  { Id := "pool"
    Filters := [⟨"f1", ⟨"rating", 1000, 2000⟩, none⟩]
    Stats := none
    Roster := [] }

/-- A pool with two filters on the same field: `rating` in [1000, 2000] and
`rating` in [2400, 3000]. -/
def sameFieldPool : PlayerPool :=
  { Id := "pool"
    Filters := [⟨"f1", ⟨"rating", 1000, 2000⟩, none⟩, ⟨"f2", ⟨"rating", 2400, 3000⟩, none⟩]
    Stats := none
    Roster := [] }

/-- A pool whose filters match disjoint sets: `rating` in [2400, 3000] and
`region` in [1, 1]. -/
def disjointPool : PlayerPool :=
  { Id := "pool"
    Filters := [⟨"f1", ⟨"rating", 2400, 3000⟩, none⟩, ⟨"f2", ⟨"region", 1, 1⟩, none⟩]
    Stats := none
    Roster := [] }

/-- A pool without filters. -/
def noFilterPool : PlayerPool :=
  { Id := "pool", Filters := [], Stats := none, Roster := [] }

/-- The ids `p0 .. p(n-1)`. -/
def manyIds (n : Nat) : List String :=
  (List.range n).map (fun i => "p" ++ toString i)

/-- An index whose `rating` set holds `p0 .. p(n-1)`, all with score 1500. -/
def crowdIndex (n : Nat) : String → List (String × Int)
  | "rating" => (manyIds n).map (fun id => (id, 1500))
  | _ => []

/-- One step of `parseNat`: the fold function, named for the lemmas on it. -/
def parseStep (acc : Option Nat) (c : Char) : Option Nat :=
  acc.bind (fun n => if c.isDigit then some (10 * n + (c.toNat - 48)) else none)

/-- The store answers range fetches faithfully for the bounds it is sent: every
entry of a successful reply to `ZRANGEBYSCORE key min max` has a score `v` with
`min <= v <= max`, where `max` is read as Redis reads it (`"+inf"` or a decimal
integer). -/
def RangeFaithful {σ : Type} (r : Redis σ) : Prop :=
  ∀ (st : σ) (key : String) (min : Int) (max : String) (offset count : Int)
    (kvs : List (String × Int)),
    (r.zrangebyscore st key min max offset count).1 = .ok kvs →
    ∀ e ∈ kvs, scoreInRange min max e.2 = some true

/-! ## Lemmas on the loops -/

/-- The chunk loop only ever appends to the list of commands issued. -/
theorem fetchLoop_calls_extend {σ : Type} (r : Redis σ) (cnt : Int) (f : FilterSpec)
    (maxv : String) (fuel : Nat) :
    ∀ (st : σ) (calls : List Cmd) (offset : Int) (pool : GoMap Int)
      (out : GoMap Int × σ × List Cmd),
      fetchLoop r cnt f maxv fuel st calls offset pool = some out →
      ∃ tail, out.2.2 = calls ++ tail := by
  induction fuel with
  | zero =>
    intro st calls offset pool out h
    unfold fetchLoop at h
    split at h
    · cases h
    · cases h
      exact ⟨[], by simp⟩
  | succ n ih =>
    intro st calls offset pool out h
    unfold fetchLoop at h
    split at h
    · obtain ⟨tail, ht⟩ := ih _ _ _ _ out h
      exact ⟨Cmd.ZRANGEBYSCORE f.Field f.Minv maxv offset cnt :: tail, by simp [ht]⟩
    · cases h
      exact ⟨[], by simp⟩

/-- Started with an empty pool at offset 0, a chunk loop that returns has first
issued the range fetch at offset 0. -/
theorem fetchLoop_first_fetch {σ : Type} (r : Redis σ) (cnt : Int) (f : FilterSpec)
    (maxv : String) (fuel : Nat) (st : σ) (calls : List Cmd)
    (out : GoMap Int × σ × List Cmd)
    (h : fetchLoop r cnt f maxv fuel st calls 0 [] = some out) :
    ∃ tail, out.2.2 = calls ++ Cmd.ZRANGEBYSCORE f.Field f.Minv maxv 0 cnt :: tail := by
  cases fuel with
  | zero => simp [fetchLoop] at h
  | succ n =>
    unfold fetchLoop at h
    simp only [List.length_nil, Nat.cast_zero, if_true] at h
    obtain ⟨tail, ht⟩ := fetchLoop_calls_extend r cnt f maxv n _ _ _ _ out h
    exact ⟨tail, by simp [ht]⟩

/-- When the probe succeeds with count 0 or with a count above 500000,
`applyFilter` returns the nil map and an error after that single command. -/
theorem applyFilter_probe_rejected {σ : Type} (r : Redis σ) (cfg : Config) (fuel : Nat)
    (st : σ) (filter : Filter) (c : Int)
    (hprobe : (r.zcount st filter.FilterSpec.Field filter.FilterSpec.Minv
      (maxvArg filter.FilterSpec)).1 = .ok c)
    (hc : c = 0 ∨ c > 500000) :
    applyFilter r cfg fuel st filter = some
      ⟨none,
        some "Number of player this filter applies to is either too large or too small, ignoring",
        (r.zcount st filter.FilterSpec.Field filter.FilterSpec.Minv
          (maxvArg filter.FilterSpec)).2,
        [Cmd.ZCOUNT filter.FilterSpec.Field filter.FilterSpec.Minv (maxvArg filter.FilterSpec)],
        none⟩ := by
  simp only [applyFilter, hprobe]
  rw [if_pos hc]

/-- When the probe succeeds with a count that is neither 0 nor above 500000,
`applyFilter` is its chunk loop. -/
theorem applyFilter_probe_accepted {σ : Type} (r : Redis σ) (cfg : Config) (fuel : Nat)
    (st : σ) (filter : Filter) (c : Int)
    (hprobe : (r.zcount st filter.FilterSpec.Field filter.FilterSpec.Minv
      (maxvArg filter.FilterSpec)).1 = .ok c)
    (hc : ¬ (c = 0 ∨ c > 500000)) :
    applyFilter r cfg fuel st filter =
      (fetchLoop r cfg.queryArgsCount filter.FilterSpec (maxvArg filter.FilterSpec) fuel
        (r.zcount st filter.FilterSpec.Field filter.FilterSpec.Minv
          (maxvArg filter.FilterSpec)).2
        [Cmd.ZCOUNT filter.FilterSpec.Field filter.FilterSpec.Minv (maxvArg filter.FilterSpec)]
        0 []).map
        (fun out => ⟨some out.1, none, out.2.1, out.2.2,
          some (if c < 100000 then CountLog.info else CountLog.warn)⟩) := by
  simp only [applyFilter, hprobe]
  rw [if_neg hc]

/-- One iteration of the filter loop. -/
theorem filterLoop_cons {σ : Type} (r : Redis σ) (cfg : Config) (fuel : Nat)
    (thisFilter : Filter) (rest : List Filter) (s : FilterLoopState σ) :
    filterLoop r cfg fuel (thisFilter :: rest) s =
      match applyFilter r cfg fuel s.st thisFilter with
      | none => none
      | some ret =>
        if ret.err.isSome ∧ (ret.results.getD []).length = 0 then
          some (.shortCircuit
            (s.filters ++
              { thisFilter with Stats := some ⟨(ret.results.getD []).length⟩ } :: rest)
            (ret.results.getD []) (s.calls ++ ret.calls))
        else
          filterLoop r cfg fuel rest
            { filters := s.filters ++
                [{ thisFilter with Stats := some ⟨(ret.results.getD []).length⟩ }]
              filteredRosters :=
                s.filteredRosters.set thisFilter.FilterSpec.Field (ret.results.getD []).keys
              filteredResults :=
                s.filteredResults.set thisFilter.FilterSpec.Field (ret.results.getD [])
              overlap := (ret.results.getD []).keys
              st := ret.st
              calls := s.calls ++ ret.calls } := by
  rfl

/-- The filter loop over `pre ++ rest`, when it runs through `pre`, continues on
`rest` from the state reached. -/
theorem filterLoop_append {σ : Type} (r : Redis σ) (cfg : Config) (fuel : Nat)
    (pre rest : List Filter) :
    ∀ (s0 s : FilterLoopState σ),
      filterLoop r cfg fuel pre s0 = some (.finished s) →
      filterLoop r cfg fuel (pre ++ rest) s0 = filterLoop r cfg fuel rest s := by
  induction pre with
  | nil =>
    intro s0 s h
    simp only [filterLoop, Option.some.injEq, FilterLoopExit.finished.injEq] at h
    simp [h]
  | cons a pre ih =>
    intro s0 s h
    simp only [List.cons_append]
    rw [filterLoop_cons] at h ⊢
    cases hret : applyFilter r cfg fuel s0.st a with
    | none => simp [hret] at h
    | some ret =>
      simp only [hret] at h ⊢
      split at h
      · cases h
      · rename_i hcond
        rw [if_neg hcond]
        exact ih _ _ h

/-! ## Lemmas on the slice helpers -/

theorem GoMap.has_set {α : Type} (m : GoMap α) (k : String) (v : α) (k' : String) :
    (GoMap.set m k v).has k' = (m.has k' || k == k') := by
  induction m with
  | nil => simp [GoMap.set, GoMap.has]
  | cons e rest ih =>
    obtain ⟨k0, v0⟩ := e
    unfold GoMap.set
    by_cases h : k0 = k
    · subst h
      simp only [if_true, GoMap.has, List.any_cons]
      cases (k0 == k') <;> simp
    · rw [if_neg h]
      have ih1 : (GoMap.set rest k v).any (fun e => e.1 == k') =
          (rest.any (fun e => e.1 == k') || k == k') := ih
      simp only [GoMap.has, List.any_cons, ih1, Bool.or_assoc]

/-- A key of the hash built by `for _, v := range a { hash[v] = true }` is a key
of the hash before the loop or an element of `a`. -/
theorem has_hashOf (a : List String) :
    ∀ (hash : GoMap Bool) (k : String),
      (hashOf hash a).has k = true ↔ hash.has k = true ∨ k ∈ a := by
  induction a with
  | nil => intro hash k; simp [hashOf]
  | cons x rest ih =>
    intro hash k
    have e : hashOf hash (x :: rest) = hashOf (hash.set x true) rest := rfl
    rw [e, ih, GoMap.has_set]
    simp only [Bool.or_eq_true, beq_iff_eq, List.mem_cons]
    constructor
    · rintro ((h | h) | h)
      · exact Or.inl h
      · exact Or.inr (Or.inl h.symm)
      · exact Or.inr (Or.inr h)
    · rintro (h | h | h)
      · exact Or.inl (Or.inl h)
      · exact Or.inl (Or.inr h.symm)
      · exact Or.inr h

/-- The helper `intersection` is exact: an id occurs in `intersection a b` if and
only if it occurs in `a` and in `b`. -/
theorem mem_intersection (a b : List String) (p : String) :
    p ∈ intersection a b ↔ p ∈ a ∧ p ∈ b := by
  have hfold : ∀ (l out : List String),
      l.foldl (fun out v => if (hashOf [] a).has v then out ++ [v] else out) out =
        out ++ l.filter (fun v => (hashOf [] a).has v) := by
    intro l
    induction l with
    | nil => intro out; simp
    | cons x rest ih =>
      intro out
      rw [List.foldl_cons, ih]
      by_cases hx : (hashOf [] a).has x = true
      · simp [hx]
      · simp [hx]
  have e : intersection a b =
      b.foldl (fun out v => if (hashOf [] a).has v then out ++ [v] else out) [] := rfl
  rw [e, hfold]
  simp only [List.nil_append, List.mem_filter, has_hashOf]
  simp [GoMap.has, and_comm]

/-- The intersection loop keeps exactly the ids of `overlap` that occur in every
entry of `filteredRosters`. -/
theorem mem_intersectAll (filteredRosters : GoMap (List String)) :
    ∀ (overlap : List String) (p : String),
      p ∈ intersectAll filteredRosters overlap ↔
        p ∈ overlap ∧ ∀ e ∈ filteredRosters, p ∈ e.2 := by
  induction filteredRosters with
  | nil => intro overlap p; simp [intersectAll]
  | cons e rest ih =>
    intro overlap p
    have e1 : intersectAll (e :: rest) overlap = intersectAll rest (intersection overlap e.2) :=
      rfl
    rw [e1, ih, mem_intersection]
    simp only [List.mem_cons, forall_eq_or_imp]
    tauto

theorem GoMap.mem_keys_iff_has {α : Type} (m : GoMap α) (k : String) :
    k ∈ m.keys ↔ m.has k = true := by
  induction m with
  | nil => simp [GoMap.keys, GoMap.has]
  | cons e rest ih =>
    have ih1 : k ∈ List.map Prod.fst rest ↔ rest.any (fun e => e.1 == k) = true := ih
    simp only [GoMap.keys, GoMap.has, List.map_cons, List.mem_cons, List.any_cons,
      Bool.or_eq_true, beq_iff_eq, ih1]
    constructor
    · rintro (h | h)
      · exact Or.inl h.symm
      · exact Or.inr h
    · rintro (h | h)
      · exact Or.inl h.symm
      · exact Or.inr h

theorem GoMap.keys_set_of_has {α : Type} (m : GoMap α) (k : String) (v : α)
    (h : m.has k = true) : (GoMap.set m k v).keys = m.keys := by
  induction m with
  | nil => simp [GoMap.has] at h
  | cons e rest ih =>
    obtain ⟨k0, v0⟩ := e
    unfold GoMap.set
    by_cases hk : k0 = k
    · subst hk
      simp [GoMap.keys]
    · rw [if_neg hk]
      have hrest : GoMap.has rest k = true := by
        simp only [GoMap.has, List.any_cons, Bool.or_eq_true, beq_iff_eq] at h
        rcases h with h | h
        · exact absurd h hk
        · simpa [GoMap.has] using h
      have := ih hrest
      simp only [GoMap.keys] at this
      simp [GoMap.keys, this]

theorem GoMap.keys_set_of_not_has {α : Type} (m : GoMap α) (k : String) (v : α)
    (h : m.has k = false) : (GoMap.set m k v).keys = m.keys ++ [k] := by
  induction m with
  | nil => simp [GoMap.set, GoMap.keys]
  | cons e rest ih =>
    obtain ⟨k0, v0⟩ := e
    simp only [GoMap.has, List.any_cons, Bool.or_eq_false_iff, beq_eq_false_iff_ne] at h
    unfold GoMap.set
    rw [if_neg h.1]
    have := ih (by simpa [GoMap.has] using h.2)
    simp only [GoMap.keys] at this
    simp [GoMap.keys, this]

/-- Assignment keeps the keys of a map pairwise distinct. -/
theorem GoMap.nodup_keys_set {α : Type} (m : GoMap α) (k : String) (v : α)
    (h : m.keys.Nodup) : (GoMap.set m k v).keys.Nodup := by
  cases hk : m.has k with
  | true => rw [GoMap.keys_set_of_has m k v hk]; exact h
  | false =>
    rw [GoMap.keys_set_of_not_has m k v hk]
    have hnot : k ∉ m.keys := by
      rw [GoMap.mem_keys_iff_has, hk]
      simp
    exact List.Nodup.append h (List.nodup_singleton k) (by simpa using hnot)

theorem nodup_keys_hashOf (a : List String) :
    ∀ hash : GoMap Bool, hash.keys.Nodup → (hashOf hash a).keys.Nodup := by
  induction a with
  | nil => intro hash h; exact h
  | cons x rest ih =>
    intro hash h
    exact ih _ (GoMap.nodup_keys_set hash x true h)

theorem union_eq_keys (a b : List String) :
    union a b = (hashOf (hashOf [] a) b).keys := by
  have hfold : ∀ (l out : List String), l.foldl (fun out k => out ++ [k]) out = out ++ l := by
    intro l
    induction l with
    | nil => intro out; simp
    | cons x rest ih => intro out; rw [List.foldl_cons, ih]; simp
  have e : union a b = (hashOf (hashOf [] a) b).keys.foldl (fun out k => out ++ [k]) [] := rfl
  rw [e, hfold, List.nil_append]

/-- The helper `union` is exact and free of duplicates: an id occurs in
`union a b` if and only if it occurs in `a` or in `b`, and no id occurs
twice. -/
theorem mem_union_nodup (a b : List String) :
    (∀ p, p ∈ union a b ↔ p ∈ a ∨ p ∈ b) ∧ (union a b).Nodup := by
  rw [union_eq_keys]
  refine ⟨?_, ?_⟩
  · intro p
    rw [GoMap.mem_keys_iff_has, has_hashOf, has_hashOf]
    simp [GoMap.has]
  · exact nodup_keys_hashOf b _ (nodup_keys_hashOf a [] List.nodup_nil)

/-- With nothing to remove, `difference` returns its first argument. -/
theorem difference_nil (a : List String) : difference a [] = a := by
  have h : ∀ (fuel i : Nat) (out : List String), differenceLoop [] fuel i out = out := by
    intro fuel
    induction fuel with
    | zero => intro i out; rfl
    | succ n ih =>
      intro i out
      unfold differenceLoop
      simp [GoMap.has, ih]
  simp [difference, hashOf, h]

/-- Every id returned by the loop of `difference` was in the slice it started
with. -/
theorem differenceLoop_subset (hash : GoMap Bool) (fuel : Nat) :
    ∀ (i : Nat) (out : List String) (p : String),
      p ∈ differenceLoop hash fuel i out → p ∈ out := by
  induction fuel with
  | zero => intro i out p h; exact h
  | succ n ih =>
    intro i out p h
    unfold differenceLoop at h
    split at h
    · rename_i hi
      split at h
      · have h1 := List.mem_of_mem_dropLast (ih _ _ _ h)
        rcases List.mem_or_eq_of_mem_set h1 with h2 | h2
        · exact h2
        · have hne : out ≠ [] := by
            intro hnil
            simp [hnil] at hi
          rw [h2]
          cases out with
          | nil => exact absurd rfl hne
          | cons x xs =>
            rw [List.getLastD_cons]
            exact List.getLastD_mem_cons _ _
      · exact ih _ _ _ h
    · exact h

/-- Every id of `difference a b` occurs in `a`. -/
theorem difference_subset (a b : List String) (p : String) (h : p ∈ difference a b) :
    p ∈ a := by
  have := differenceLoop_subset (hashOf [] b) _ _ _ p h
  simpa using this

/-- The swap of `difference` loses no other element: every element of `out`
other than the one at index `i` is still there after the last element has been
copied to index `i` and the slice shortened by one. -/
theorem mem_swap_remove (out : List String) (i : Nat) (hi : i < out.length) (x p : String)
    (hx : out[i]? = some x) (hp : p ∈ out) (hne : p ≠ x) :
    p ∈ (out.set i (out.getLastD "")).dropLast := by
  obtain ⟨j, hj⟩ := List.mem_iff_getElem?.mp hp
  have hjlt : j < out.length := by
    obtain ⟨h, _⟩ := List.getElem?_eq_some_iff.mp hj
    exact h
  have hji : i ≠ j := by
    intro h
    subst h
    rw [hx] at hj
    exact hne (Option.some.inj hj).symm
  rw [List.mem_iff_getElem?]
  by_cases hlast : j < out.length - 1
  · refine ⟨j, ?_⟩
    rw [List.getElem?_dropLast, if_pos (by simpa using hlast), List.getElem?_set_ne hji]
    exact hj
  · have hjeq : j = out.length - 1 := by omega
    refine ⟨i, ?_⟩
    have hlastv : out.getLastD "" = p := by
      rw [List.getLastD_eq_getLast?, List.getLast?_eq_getElem?, ← hjeq, hj]
      rfl
    rw [List.getElem?_dropLast, if_pos (by simp; omega), List.getElem?_set_self hi, hlastv]

/-- The loop of `difference` never drops an id that is not a key of `hash`. -/
theorem differenceLoop_keeps (hash : GoMap Bool) (fuel : Nat) :
    ∀ (i : Nat) (out : List String) (p : String),
      p ∈ out → hash.has p = false → p ∈ differenceLoop hash fuel i out := by
  induction fuel with
  | zero => intro i out p h _; exact h
  | succ n ih =>
    intro i out p hp hh
    unfold differenceLoop
    split
    · rename_i hi
      split
      · rename_i hfound
        apply ih _ _ _ _ hh
        have hx : out[i]? = some (out.getD i "") := by
          rw [List.getD_eq_getElem?_getD, List.getElem?_eq_getElem hi]
          rfl
        apply mem_swap_remove out i hi (out.getD i "") p hx hp
        intro heq
        rw [heq, hfound] at hh
        cases hh
      · exact ih _ _ _ hp hh
    · exact hp

/-- What does hold of `difference`: its ids all come from `a`, and every id of
`a` that is not in `b` is kept. The third part of exactness, that no id of `b`
is kept, is not among them. -/
theorem difference_sound_part (a b : List String) (p : String) :
    (p ∈ difference a b → p ∈ a) ∧ (p ∈ a ∧ p ∉ b → p ∈ difference a b) := by
  refine ⟨difference_subset a b p, ?_⟩
  rintro ⟨ha, hb⟩
  have hh : (hashOf [] b).has p = false := by
    cases h : (hashOf [] b).has p with
    | false => rfl
    | true =>
      rw [has_hashOf] at h
      rcases h with h | h
      · simp [GoMap.has] at h
      · exact absurd h hb
  have := differenceLoop_keeps (hashOf [] b) ([] ++ a).length 0 ([] ++ a) p (by simpa using ha) hh
  exact this

/-! ## Lemmas on the intersection of distinct fields -/

theorem GoMap.set_of_not_has {α : Type} (m : GoMap α) (k : String) (v : α)
    (h : m.has k = false) : GoMap.set m k v = m ++ [(k, v)] := by
  induction m with
  | nil => rfl
  | cons e rest ih =>
    obtain ⟨k0, v0⟩ := e
    simp only [GoMap.has, List.any_cons, Bool.or_eq_false_iff, beq_eq_false_iff_ne] at h
    unfold GoMap.set
    rw [if_neg h.1, ih (by simpa [GoMap.has] using h.2)]
    rfl

theorem GoMap.has_append_singleton {α : Type} (m : GoMap α) (k : String) (v : α)
    (k' : String) : GoMap.has (m ++ [(k, v)]) k' = (m.has k' || k == k') := by
  simp [GoMap.has]

/-- The filter loop over filters with pairwise distinct fields, none of them a
key of `filteredRosters` yet: it appends one entry per filter, in order, and
`overlap` ends as the ids of the last filter. -/
theorem filterLoop_distinct_fields {σ : Type} (r : Redis σ) (cfg : Config) (fuel : Nat)
    (fs : List Filter) :
    ∀ (s0 : FilterLoopState σ) (rs : List (GoMap Int)),
      (fs.map (fun f => f.FilterSpec.Field)).Nodup →
      (∀ f ∈ fs, s0.filteredRosters.has f.FilterSpec.Field = false) →
      filterResultsOf r cfg fuel fs s0.st = some rs →
      ∃ s, filterLoop r cfg fuel fs s0 = some (.finished s) ∧
        s.filteredRosters =
          s0.filteredRosters ++ (fs.zip rs).map (fun x => (x.1.FilterSpec.Field, x.2.keys)) ∧
        s.overlap = (rs.getLast?.map GoMap.keys).getD s0.overlap ∧
        rs.length = fs.length := by
  induction fs with
  | nil =>
    intro s0 rs _ _ h
    simp only [filterResultsOf, Option.some.injEq] at h
    subst h
    exact ⟨s0, rfl, by simp, rfl, rfl⟩
  | cons f rest ih =>
    intro s0 rs hnd hfresh h
    rw [filterResultsOf] at h
    rw [filterLoop_cons]
    cases hret : applyFilter r cfg fuel s0.st f with
    | none => simp [hret] at h
    | some ret =>
      simp only [hret] at h ⊢
      split at h
      · cases h
      · rename_i hcond
        rw [if_neg hcond]
        simp only [Option.map_eq_some'] at h
        obtain ⟨rs1, hrs1, rfl⟩ := h
        have hf : s0.filteredRosters.has f.FilterSpec.Field = false :=
          hfresh f (List.mem_cons_self _ _)
        rw [List.map_cons, List.nodup_cons] at hnd
        have hfresh1 : ∀ g ∈ rest,
            GoMap.has (s0.filteredRosters.set f.FilterSpec.Field (ret.results.getD []).keys)
              g.FilterSpec.Field = false := by
          intro g hg
          rw [GoMap.has_set, hfresh g (List.mem_cons_of_mem _ hg)]
          simp only [Bool.false_or, beq_eq_false_iff_ne]
          intro heq
          exact hnd.1 (heq ▸ List.mem_map_of_mem (fun f => f.FilterSpec.Field) hg)
        obtain ⟨s, hs1, hs2, hs3, hs4⟩ := ih
          { filters := s0.filters ++
              [{ f with Stats := some ⟨(ret.results.getD []).length⟩ }]
            filteredRosters :=
              s0.filteredRosters.set f.FilterSpec.Field (ret.results.getD []).keys
            filteredResults :=
              s0.filteredResults.set f.FilterSpec.Field (ret.results.getD [])
            overlap := (ret.results.getD []).keys
            st := ret.st
            calls := s0.calls ++ ret.calls } rs1 hnd.2 hfresh1 hrs1
        refine ⟨s, hs1, ?_, ?_, by simp [hs4]⟩
        · rw [hs2]
          simp only [GoMap.set_of_not_has _ _ _ hf, List.zip_cons_cons, List.map_cons,
            List.append_assoc, List.singleton_append]
        · rw [hs3, List.getLast?_cons]
          cases rs1.getLast? <;> rfl

/-- For a pool with at least one filter whose filters have pairwise distinct
fields, when the filter loop runs to its end: the id list after the
intersection loop contains an id if and only if it is a key of the result of
every filter. -/
theorem overlapOf_distinct_fields {σ : Type} (r : Redis σ) (cfg : Config) (fuel : Nat)
    (st : σ) (pool : PlayerPool) (rs : List (GoMap Int))
    (hne : pool.Filters ≠ [])
    (hnd : (pool.Filters.map (fun f => f.FilterSpec.Field)).Nodup)
    (hrs : filterResultsOf r cfg fuel pool.Filters st = some rs) :
    ∃ overlap, overlapOf r cfg fuel st pool = some overlap ∧
      ∀ p, p ∈ overlap ↔ ∀ results ∈ rs, p ∈ GoMap.keys results := by
  obtain ⟨s, hs1, hs2, hs3, hs4⟩ := filterLoop_distinct_fields r cfg fuel pool.Filters
    ⟨[], [], [], [], st, []⟩ rs hnd (fun _ _ => rfl) hrs
  refine ⟨intersectAll s.filteredRosters s.overlap, by simp [overlapOf, hs1], ?_⟩
  intro p
  rw [mem_intersectAll, hs2, hs3]
  have hrsne : rs ≠ [] := by
    intro h
    rw [h] at hs4
    exact hne (List.length_eq_zero.mp hs4.symm)
  constructor
  · rintro ⟨_, hall⟩ results hres
    have hmem : results ∈ (pool.Filters.zip rs).map Prod.snd := by
      rw [List.map_snd_zip _ _ (by omega)]
      exact hres
    obtain ⟨x, hx, rfl⟩ := List.mem_map.mp hmem
    exact hall (x.1.FilterSpec.Field, GoMap.keys x.2)
      (by
        simp only [List.nil_append, List.mem_map]
        exact ⟨x, hx, rfl⟩)
  · intro hall
    refine ⟨?_, ?_⟩
    · cases hlast : rs.getLast? with
      | none => exact absurd (List.getLast?_eq_none_iff.mp hlast) hrsne
      | some res =>
        simp only [Option.map_some', Option.getD_some]
        exact hall res (List.mem_of_getLast?_eq_some hlast)
    · intro e he
      simp only [List.nil_append, List.mem_map] at he
      obtain ⟨⟨xf, xres⟩, hx, rfl⟩ := he
      exact hall xres (List.of_mem_zip hx).2

/-! ## Lemmas on `allIgnoreLists` -/

/-- The loop of `allIgnoreLists` hands back the named results it was started
with, whatever was retrieved. -/
theorem allIgnoreListsLoop_results (retrieve : Retrieve) (lists : GoMap String) :
    ∀ (allIgnored : List String) (err : Option String) (logged : List Nat)
      (ilr : IgnoreReturn),
      allIgnoreListsLoop retrieve lists allIgnored err logged = .ok ilr →
      ilr.allIgnored = allIgnored ∧ ilr.err = err := by
  induction lists with
  | nil =>
    intro allIgnored err logged ilr h
    simp only [allIgnoreListsLoop, Except.ok.injEq] at h
    subst h
    exact ⟨rfl, rfl⟩
  | cons il rest ih =>
    intro allIgnored err logged ilr h
    unfold allIgnoreListsLoop at h
    split at h
    · cases h
    · exact ih _ _ _ _ h

/-- Whenever `allIgnoreLists` returns, it returns no id and a nil error. -/
theorem allIgnoreLists_results (retrieve : Retrieve) (cfg : Config) (ilr : IgnoreReturn)
    (h : allIgnoreLists retrieve cfg = .ok ilr) : ilr.allIgnored = [] ∧ ilr.err = none :=
  allIgnoreListsLoop_results retrieve cfg.ignoreLists [] none [] ilr h

/-! ## Lemmas on the error exits -/

/-- The chunk loop stops as soon as `len(pool)` differs from `offset`. -/
theorem fetchLoop_exit {σ : Type} (r : Redis σ) (cnt : Int) (f : FilterSpec) (maxv : String)
    (fuel : Nat) (st : σ) (calls : List Cmd) (offset : Int) (pool : GoMap Int)
    (h : (pool.length : Int) ≠ offset) :
    fetchLoop r cnt f maxv fuel st calls offset pool = some (pool, st, calls) := by
  cases fuel with
  | zero => simp [fetchLoop, h]
  | succ n => simp [fetchLoop, h]

/-- When the probe fails at the store, `applyFilter` returns the nil map and
that error after the single command. -/
theorem applyFilter_probe_failed {σ : Type} (r : Redis σ) (cfg : Config) (fuel : Nat)
    (st : σ) (filter : Filter) (e : String)
    (hprobe : (r.zcount st filter.FilterSpec.Field filter.FilterSpec.Minv
      (maxvArg filter.FilterSpec)).1 = .error e) :
    applyFilter r cfg fuel st filter = some
      ⟨none, some e,
        (r.zcount st filter.FilterSpec.Field filter.FilterSpec.Minv
          (maxvArg filter.FilterSpec)).2,
        [Cmd.ZCOUNT filter.FilterSpec.Field filter.FilterSpec.Minv (maxvArg filter.FilterSpec)],
        none⟩ := by
  simp only [applyFilter, hprobe]

/-- When the probe is accepted, the fetch page size is not 0 and the first range
fetch fails at the store, `applyFilter` returns the empty map and a nil error
(given room for one fetch). -/
theorem applyFilter_first_fetch_error {σ : Type} (r : Redis σ) (cfg : Config) (fuel : Nat)
    (st : σ) (filter : Filter) (c : Int) (e : String)
    (hprobe : (r.zcount st filter.FilterSpec.Field filter.FilterSpec.Minv
      (maxvArg filter.FilterSpec)).1 = .ok c)
    (hc : 1 ≤ c ∧ c ≤ 500000)
    (hcnt : cfg.queryArgsCount ≠ 0)
    (hfetch : (r.zrangebyscore
      (r.zcount st filter.FilterSpec.Field filter.FilterSpec.Minv (maxvArg filter.FilterSpec)).2
      filter.FilterSpec.Field filter.FilterSpec.Minv (maxvArg filter.FilterSpec) 0
      cfg.queryArgsCount).1 = .error e) :
    ∃ ret, applyFilter r cfg (fuel + 1) st filter = some ret ∧
      ret.results = some [] ∧ ret.err = none := by
  rw [applyFilter_probe_accepted r cfg (fuel + 1) st filter c hprobe (by omega)]
  rw [fetchLoop]
  simp only [List.length_nil, Nat.cast_zero, if_true, hfetch, int64Map, mergeResults,
    List.foldl_nil, Int.zero_add]
  rw [fetchLoop_exit]
  · exact ⟨_, rfl, rfl, rfl⟩
  · simpa using hcnt.symm

/-- Any error return of `applyFilter` makes `GetPlayerPool` take the empty-pool
exit: let the pool's filters be `pre`, then `f`, then `post`. If the filter
loop runs through `pre`, reaching state `s`, and `applyFilter` for `f` returns
an error `e` with the nil map, and the send succeeds, then `GetPlayerPool`
delivers one page with an empty roster and returns a nil error, not `e`. -/
theorem GetPlayerPool_error_exit {σ : Type} (r : Redis σ) (cfg : Config)
    (retrieve : Retrieve) (fuel : Nat) (st : σ) (pool : PlayerPool) (stream : Stream)
    (pre post : List Filter) (f : Filter) (s : FilterLoopState σ) (ret : FilterReturn σ)
    (hpool : pool.Filters = pre ++ f :: post)
    (hpre : filterLoop r cfg fuel pre ⟨[], [], [], [], st, []⟩ = some (.finished s))
    (hf : applyFilter r cfg fuel s.st f = some ret)
    (herr : ret.err.isSome) (hres : ret.results = none)
    (hsend : ∀ p, stream 0 p = none) :
    ∃ page,
      GetPlayerPool r cfg retrieve fuel st pool stream =
        some ⟨[page], s.calls ++ ret.calls, .returned none⟩ ∧
      page.Roster = [] ∧ page.Id = pool.Id ∧ page.Stats = some ⟨0⟩ := by
  have hloop := filterLoop_append r cfg fuel pre (f :: post) _ s hpre
  rw [filterLoop_cons, hf] at hloop
  simp only [herr, hres, Option.getD_none, List.length_nil, and_self, if_true] at hloop
  refine ⟨{ pool with
      Filters := s.filters ++ { f with Stats := some ⟨0⟩ } :: post
      Stats := some ⟨0⟩
      Roster := [] }, ?_, rfl, rfl, rfl⟩
  simp only [GetPlayerPool, hpool, hloop, hsend]
  rfl

/-! ## Lemmas on the page loop -/

theorem pageIds_pageOf (pool : PlayerPool) (pageSize pageCount : Int) (i : Nat)
    (players : List Player) :
    pageIds (pageOf pool pageSize pageCount i players) = players.map Player.Id := by
  simp [pageIds, pageOf]

/-- One iteration of the page loop when no send fails and the page size is
positive. -/
theorem pageLoop_cons_ok (stream : Stream) (hs : ∀ k p, stream k p = none) (pool : PlayerPool)
    (s : Nat) (hpos : 0 < s) (pageCount : Int) (fr : GoMap (GoMap Int)) (pID : String)
    (rest : List String) (i : Nat) (players : List Player) (sent : List PlayerPool) :
    pageLoop stream pool s pageCount fr (pID :: rest) i players sent =
      if i % s = 0 then
        pageLoop stream pool s pageCount fr rest (i + 1) []
          (sent ++ [pageOf pool s pageCount i (players ++ [⟨pID, playerProperties fr pID⟩])])
      else
        pageLoop stream pool s pageCount fr rest (i + 1)
          (players ++ [⟨pID, playerProperties fr pID⟩]) sent := by
  have hne : ((s : Nat) : Int) ≠ 0 := by omega
  have hmod : Int.tmod (i : Int) (s : Int) = ((i % s : Nat) : Int) := (Int.ofNat_tmod i s).symm
  rw [pageLoop]
  dsimp only
  rw [if_neg hne, hmod]
  by_cases h : i % s = 0
  · have h0 : ((i % s : Nat) : Int) = 0 := by omega
    rw [if_pos h0, if_pos h, hs]
  · have h0 : ((i % s : Nat) : Int) ≠ 0 := by omega
    rw [if_neg h0, if_neg h]

theorem gap_of_mod_zero (s i : Nat) (h : i % s = 0) : gap s i = 0 := by
  simp [gap, h]

theorem gap_succ_of_mod_zero (s i : Nat) (hpos : 0 < s) (h : i % s = 0) :
    gap s (i + 1) = s - 1 := by
  unfold gap
  rw [Nat.add_mod, h, Nat.zero_add, Nat.mod_mod]
  rcases Nat.lt_or_ge 1 s with h1 | h1
  · rw [Nat.mod_eq_of_lt h1, Nat.mod_eq_of_lt (by omega)]
  · have : s = 1 := by omega
    subst this
    simp

theorem gap_succ_of_mod_ne (s i : Nat) (hpos : 0 < s) (h : i % s ≠ 0) :
    gap s (i + 1) + 1 = gap s i := by
  have hlt : i % s < s := Nat.mod_lt _ hpos
  have h1 : 1 < s := by omega
  have hg : gap s i = s - i % s := by
    unfold gap
    exact Nat.mod_eq_of_lt (by omega)
  rw [hg]
  unfold gap
  rw [Nat.add_mod, Nat.mod_eq_of_lt h1]
  rcases Nat.lt_or_ge (i % s + 1) s with h2 | h2
  · rw [Nat.mod_eq_of_lt h2, Nat.mod_eq_of_lt (by omega)]
    omega
  · have h3 : i % s + 1 = s := by omega
    rw [h3, Nat.mod_self, Nat.sub_zero, Nat.mod_self]
    omega

theorem replicate_div_step (s m : Nat) (hpos : 0 < s) :
    List.replicate (m / s) s =
      if s - 1 < m then s :: List.replicate ((m - (s - 1) - 1) / s) s else [] := by
  by_cases h : s - 1 < m
  · rw [if_pos h]
    have hle : s ≤ m := by omega
    have : m / s = (m - (s - 1) - 1) / s + 1 := by
      rw [Nat.div_eq m s, if_pos ⟨hpos, hle⟩]
      congr 2
      omega
    rw [this, List.replicate_succ]
  · rw [if_neg h]
    rw [Nat.div_eq_of_lt (by omega)]
    rfl

theorem mul_div_step (s m : Nat) (hpos : 0 < s) (h : s - 1 < m) :
    s * (m / s) = s - 1 + 1 + s * ((m - (s - 1) - 1) / s) := by
  have hle : s ≤ m := by omega
  have : m / s = (m - (s - 1) - 1) / s + 1 := by
    rw [Nat.div_eq m s, if_pos ⟨hpos, hle⟩]
    congr 2
    omega
  rw [this, Nat.mul_add]
  omega

/-- The page loop when no send fails and the page size `s` is positive: it
returns a nil error; a first page is sent at the next index divisible by `s`
with everything buffered up to it, then pages of exactly `s` players, and the
players after the last such index are not sent. -/
theorem pageLoop_ok (stream : Stream) (hs : ∀ k p, stream k p = none) (pool : PlayerPool)
    (s : Nat) (hpos : 0 < s) (pageCount : Int) (fr : GoMap (GoMap Int)) :
    ∀ (l : List String) (i : Nat) (players : List Player) (sent : List PlayerPool),
      (pageLoop stream pool s pageCount fr l i players sent).2 = .returned none ∧
      pageSizes (pageLoop stream pool s pageCount fr l i players sent).1 =
        pageSizes sent ++
          (if gap s i < l.length then
            (players.length + gap s i + 1) ::
              List.replicate ((l.length - gap s i - 1) / s) s
          else []) ∧
      ((pageLoop stream pool s pageCount fr l i players sent).1.map pageIds).flatten =
        (sent.map pageIds).flatten ++
          (if gap s i < l.length then
            (players.map Player.Id ++ l).take
              (players.length + gap s i + 1 + s * ((l.length - gap s i - 1) / s))
          else []) := by
  intro l
  induction l with
  | nil =>
    intro i players sent
    simp [pageLoop]
  | cons p rest ih =>
    intro i players sent
    rw [pageLoop_cons_ok stream hs pool s hpos]
    by_cases h : i % s = 0
    · rw [if_pos h]
      obtain ⟨h1, h2, h3⟩ := ih (i + 1) []
        (sent ++ [pageOf pool s pageCount i (players ++ [⟨p, playerProperties fr p⟩])])
      refine ⟨h1, ?_, ?_⟩
      · rw [h2, gap_of_mod_zero s i h, gap_succ_of_mod_zero s i hpos h]
        simp only [pageSizes, List.map_append, List.map_cons, List.map_nil, pageIds_pageOf,
          List.length_map, List.length_append, List.length_cons, List.length_nil,
          List.append_assoc, List.singleton_append, Nat.add_zero, Nat.zero_add,
          Nat.zero_lt_succ, if_true, Nat.add_sub_cancel, Nat.sub_zero]
        rw [replicate_div_step s rest.length hpos]
        by_cases hm : s - 1 < rest.length
        · simp only [if_pos hm]
          have : s - 1 + 1 = s := by omega
          rw [this]
        · simp only [if_neg hm]
      · rw [h3, gap_of_mod_zero s i h, gap_succ_of_mod_zero s i hpos h]
        simp only [List.map_append, List.map_cons, List.map_nil, pageIds_pageOf,
          List.flatten_append, List.flatten_cons, List.flatten_nil, List.append_nil,
          List.length_cons, List.length_nil, Nat.zero_lt_succ, if_true, List.nil_append,
          Nat.add_zero, Nat.zero_add, Nat.add_sub_cancel, Nat.sub_zero, List.append_assoc]
        have key : ∀ K, List.take (players.length + 1 + K)
            (List.map Player.Id players ++ p :: rest) =
            List.map Player.Id players ++ ([p] ++ List.take K rest) := by
          intro K
          have e1 : List.map Player.Id players ++ p :: rest =
              (List.map Player.Id players ++ [p]) ++ rest := by simp
          have e2 : players.length + 1 = (List.map Player.Id players ++ [p]).length := by simp
          rw [e1, e2, List.take_append]
          simp
        rw [key]
        by_cases hm : s - 1 < rest.length
        · rw [if_pos hm, mul_div_step s rest.length hpos hm]
        · rw [if_neg hm, Nat.div_eq_of_lt (by omega)]
          simp
    · rw [if_neg h]
      have hg := gap_succ_of_mod_ne s i hpos h
      obtain ⟨h1, h2, h3⟩ := ih (i + 1) (players ++ [⟨p, playerProperties fr p⟩]) sent
      refine ⟨h1, ?_, ?_⟩
      · rw [h2, ← hg]
        simp only [List.length_append, List.length_cons, List.length_nil]
        by_cases hc : gap s (i + 1) < rest.length
        · have hc1 : gap s (i + 1) + 1 < rest.length + 1 := by omega
          rw [if_pos hc, if_pos hc1]
          have e1 : players.length + (0 + 1) + gap s (i + 1) + 1 =
              players.length + (gap s (i + 1) + 1) + 1 := by omega
          have e2 : rest.length + 1 - (gap s (i + 1) + 1) - 1 =
              rest.length - gap s (i + 1) - 1 := by omega
          rw [e1, e2]
        · have hc1 : ¬ gap s (i + 1) + 1 < rest.length + 1 := by omega
          rw [if_neg hc, if_neg hc1]
      · rw [h3, ← hg]
        simp only [List.length_append, List.length_cons, List.length_nil, List.map_append,
          List.map_cons, List.map_nil, List.append_assoc, List.singleton_append]
        by_cases hc : gap s (i + 1) < rest.length
        · have hc1 : gap s (i + 1) + 1 < rest.length + 1 := by omega
          rw [if_pos hc, if_pos hc1]
          have e1 : players.length + (0 + 1) + gap s (i + 1) + 1 =
              players.length + (gap s (i + 1) + 1) + 1 := by omega
          have e2 : rest.length + 1 - (gap s (i + 1) + 1) - 1 =
              rest.length - gap s (i + 1) - 1 := by omega
          rw [e1, e2]
        · have hc1 : ¬ gap s (i + 1) + 1 < rest.length + 1 := by omega
          rw [if_neg hc, if_neg hc1]

/-- What `GetPlayerPool` delivers when the filter loop runs to its end,
`allIgnoreLists` returns, the result page size `sz` is positive and no send
fails. With `overlap` the id list after the intersection loop and `n` its
length: the call returns a nil error; for `n = 0` no page is sent; otherwise
the pages have sizes 1, `sz`, ..., `sz` (`(n - 1) / sz` pages of `sz`) and carry
the first `1 + sz * ((n - 1) / sz)` ids of `overlap`. The ignore lists take no
part. -/
theorem GetPlayerPool_delivers_prefix {σ : Type} (r : Redis σ) (cfg : Config)
    (retrieve : Retrieve) (fuel : Nat) (st : σ) (pool : PlayerPool) (stream : Stream)
    (s : FilterLoopState σ) (ilr : IgnoreReturn) (sz : Nat)
    (hloop : filterLoop r cfg fuel pool.Filters ⟨[], [], [], [], st, []⟩ = some (.finished s))
    (hil : allIgnoreLists retrieve cfg = .ok ilr)
    (hsz : cfg.resultsPageSize = (sz : Int)) (hpos : 0 < sz)
    (hs : ∀ k p, stream k p = none) :
    ∃ o, GetPlayerPool r cfg retrieve fuel st pool stream = some o ∧
      o.exit = .returned none ∧ o.calls = s.calls ∧
      pageSizes o.sent =
        (if 0 < (intersectAll s.filteredRosters s.overlap).length then
          1 :: List.replicate (((intersectAll s.filteredRosters s.overlap).length - 1) / sz) sz
        else []) ∧
      sentIds o =
        (if 0 < (intersectAll s.filteredRosters s.overlap).length then
          (intersectAll s.filteredRosters s.overlap).take
            (1 + sz * (((intersectAll s.filteredRosters s.overlap).length - 1) / sz))
        else []) := by
  have hnil := (allIgnoreLists_results retrieve cfg ilr hil).1
  have hgap : gap sz 0 = 0 := gap_of_mod_zero sz 0 (Nat.zero_mod sz)
  simp only [GetPlayerPool, hloop, hil, hnil, difference_nil, hsz]
  obtain ⟨h1, h2, h3⟩ := pageLoop_ok stream hs
    { pool with
      Filters := s.filters
      Stats := some ⟨(intersectAll s.filteredRosters s.overlap).length⟩ }
    sz hpos (pageCountOf (intersectAll s.filteredRosters s.overlap).length sz)
    s.filteredResults (intersectAll s.filteredRosters s.overlap) 0 [] []
  rw [hgap] at h2 h3
  refine ⟨_, rfl, h1, rfl, ?_, ?_⟩
  · simpa [pageSizes] using h2
  · simpa [sentIds] using h3

/-! ## Lemmas on reading back a formatted bound -/

theorem parseNat_eq (cs : List Char) :
    parseNat cs = if cs = [] then none else cs.foldl parseStep (some 0) := rfl

theorem foldl_parseStep_none (cs : List Char) : cs.foldl parseStep none = none := by
  induction cs with
  | nil => rfl
  | cons c rest ih => simpa [List.foldl_cons, parseStep] using ih

theorem digitChar_parse : ∀ d, d < 10 →
    (Nat.digitChar d).isDigit = true ∧ (Nat.digitChar d).toNat - 48 = d := by
  decide

theorem parseStep_digitChar (a d : Nat) (hd : d < 10) :
    parseStep (some a) (Nat.digitChar d) = some (10 * a + d) := by
  obtain ⟨h1, h2⟩ := digitChar_parse d hd
  simp [parseStep, h1, h2]

/-- Reading back the digits written by `Nat.toDigitsCore`. -/
theorem foldl_parseStep_toDigitsCore (fuel : Nat) :
    ∀ (n : Nat) (ds : List Char) (a : Nat), n < fuel →
      ∃ k, (Nat.toDigitsCore 10 fuel n ds).foldl parseStep (some a) =
        ds.foldl parseStep (some (a * 10 ^ k + n)) := by
  induction fuel with
  | zero => intro n ds a h; omega
  | succ f ih =>
    intro n ds a h
    have hd : n % 10 < 10 := Nat.mod_lt _ (by decide)
    unfold Nat.toDigitsCore
    by_cases h0 : n / 10 = 0
    · simp only [h0, if_true, List.foldl_cons]
      rw [parseStep_digitChar a _ hd]
      refine ⟨1, ?_⟩
      have : n % 10 = n := Nat.mod_eq_of_lt (by omega)
      rw [this]
      congr 2
      omega
    · simp only [h0, if_false]
      obtain ⟨k, hk⟩ := ih (n / 10) (Nat.digitChar (n % 10) :: ds) a (by omega)
      rw [hk, List.foldl_cons, parseStep_digitChar _ _ hd]
      refine ⟨k + 1, ?_⟩
      congr 2
      rw [Nat.pow_succ]
      have := Nat.div_add_mod n 10
      nlinarith [this]

theorem toDigitsCore_ne_nil (fuel : Nat) :
    ∀ (n : Nat) (ds : List Char), ds ≠ [] ∨ 0 < fuel → Nat.toDigitsCore 10 fuel n ds ≠ [] := by
  induction fuel with
  | zero =>
    intro n ds h
    rcases h with h | h
    · simpa [Nat.toDigitsCore] using h
    · omega
  | succ f ih =>
    intro n ds _
    unfold Nat.toDigitsCore
    by_cases h0 : n / 10 = 0
    · simp [h0]
    · simp only [h0, if_false]
      exact ih _ _ (Or.inl (by simp))

theorem parseNat_toDigits (n : Nat) : parseNat (Nat.toDigits 10 n) = some n := by
  have hne : Nat.toDigits 10 n ≠ [] :=
    toDigitsCore_ne_nil (n + 1) n [] (Or.inr (by omega))
  obtain ⟨k, hk⟩ := foldl_parseStep_toDigitsCore (n + 1) n [] 0 (by omega)
  have hk1 : (Nat.toDigits 10 n).foldl parseStep (some 0) = some n := by
    simpa [Nat.toDigits] using hk
  rw [parseNat_eq, if_neg hne, hk1]

/-- Reading back what `strconv.FormatInt(m, 10)` writes gives `m`. -/
theorem parseInt_toString (m : Int) : parseInt (toString m) = some m := by
  cases m with
  | ofNat n =>
    have hdata : (toString (Int.ofNat n)).data = Nat.toDigits 10 n := rfl
    have hp := parseNat_toDigits n
    unfold parseInt
    rw [hdata]
    split
    · rename_i cs heq
      rw [heq, parseNat_eq, if_neg (by simp), List.foldl_cons] at hp
      have : parseStep (some 0) '-' = none := by decide
      rw [this, foldl_parseStep_none] at hp
      cases hp
    · rw [hp]
      rfl
  | negSucc n =>
    have hdata : (toString (Int.negSucc n)).data = '-' :: Nat.toDigits 10 (n + 1) := rfl
    unfold parseInt
    rw [hdata]
    simp only [parseNat_toDigits, Option.map_some']
    rfl

/-! ## Lemmas on range soundness -/

theorem GoMap.mem_set {α : Type} (m : GoMap α) (k : String) (v : α) (e : String × α)
    (h : e ∈ GoMap.set m k v) : e = (k, v) ∨ e ∈ m := by
  induction m with
  | nil =>
    simp only [GoMap.set, List.mem_singleton] at h
    exact Or.inl h
  | cons x rest ih =>
    obtain ⟨k0, v0⟩ := x
    unfold GoMap.set at h
    by_cases hk : k0 = k
    · rw [if_pos hk] at h
      rcases List.mem_cons.mp h with h | h
      · exact Or.inl h
      · exact Or.inr (List.mem_cons_of_mem _ h)
    · rw [if_neg hk] at h
      rcases List.mem_cons.mp h with h | h
      · exact Or.inr (h ▸ List.mem_cons_self _ _)
      · rcases ih h with h | h
        · exact Or.inl h
        · exact Or.inr (List.mem_cons_of_mem _ h)

/-- Assigning entries that satisfy `Q` to a map whose entries satisfy `Q` gives a
map whose entries satisfy `Q`. -/
theorem foldl_set_all (Q : String × Int → Prop) (kvs : List (String × Int)) :
    ∀ (m : GoMap Int), (∀ e ∈ m, Q e) → (∀ e ∈ kvs, Q e) →
      ∀ e ∈ kvs.foldl (fun m kv => GoMap.set m kv.1 kv.2) m, Q e := by
  induction kvs with
  | nil => intro m hm _ e he; exact hm e he
  | cons x rest ih =>
    intro m hm hk e he
    rw [List.foldl_cons] at he
    refine ih (GoMap.set m x.1 x.2) ?_ (fun e he => hk e (List.mem_cons_of_mem _ he)) e he
    intro e1 he1
    rcases GoMap.mem_set m x.1 x.2 e1 he1 with h | h
    · rw [h]
      exact hk x (List.mem_cons_self _ _)
    · exact hm e1 h

theorem mergeResults_fst (results pool : GoMap Int) (offset : Int) :
    (mergeResults results pool offset).1 =
      results.foldl (fun m kv => GoMap.set m kv.1 kv.2) pool := by
  unfold mergeResults
  induction results generalizing pool offset with
  | nil => rfl
  | cons x rest ih =>
    rw [List.foldl_cons, List.foldl_cons]
    exact ih _ _

/-- The chunk loop only puts into the pool what the store replied: if the
entries of the pool and of every reply to the filter's range fetch satisfy `Q`,
so do the entries of the pool it returns. -/
theorem fetchLoop_all {σ : Type} (r : Redis σ) (cnt : Int) (f : FilterSpec) (maxv : String)
    (Q : String × Int → Prop)
    (hQ : ∀ (st : σ) (offset : Int) (kvs : List (String × Int)),
      (r.zrangebyscore st f.Field f.Minv maxv offset cnt).1 = .ok kvs → ∀ e ∈ kvs, Q e)
    (fuel : Nat) :
    ∀ (st : σ) (calls : List Cmd) (offset : Int) (pool : GoMap Int)
      (out : GoMap Int × σ × List Cmd),
      (∀ e ∈ pool, Q e) →
      fetchLoop r cnt f maxv fuel st calls offset pool = some out →
      ∀ e ∈ out.1, Q e := by
  induction fuel with
  | zero =>
    intro st calls offset pool out hpool h
    unfold fetchLoop at h
    split at h
    · cases h
    · cases h
      exact hpool
  | succ n ih =>
    intro st calls offset pool out hpool h
    unfold fetchLoop at h
    split at h
    · refine ih _ _ _ _ out ?_ h
      rw [mergeResults_fst]
      apply foldl_set_all Q _ pool hpool
      cases hreply : (r.zrangebyscore st f.Field f.Minv maxv offset cnt).1 with
      | error e =>
        intro e1 he1
        simp [int64Map] at he1
      | ok kvs =>
        simp only [int64Map]
        exact foldl_set_all Q kvs [] (fun _ h => absurd h (List.not_mem_nil _))
          (hQ st offset kvs hreply)
    · cases h
      exact hpool

/-- Against a faithful store, every entry of a map returned by `applyFilter` has
a score within the bounds that were sent: `Minv` and the string `maxvArg`. -/
theorem applyFilter_results_in_sent_range {σ : Type} (r : Redis σ) (hr : RangeFaithful r)
    (cfg : Config) (fuel : Nat) (st : σ) (filter : Filter) (ret : FilterReturn σ)
    (results : GoMap Int)
    (hret : applyFilter r cfg fuel st filter = some ret)
    (hres : ret.results = some results) :
    ∀ e ∈ results,
      scoreInRange filter.FilterSpec.Minv (maxvArg filter.FilterSpec) e.2 = some true := by
  unfold applyFilter at hret
  simp only at hret
  split at hret
  · cases hret
    cases hres
  · split at hret
    · cases hret
      cases hres
    · simp only [Option.map_eq_some'] at hret
      obtain ⟨out, hout, rfl⟩ := hret
      simp only [Option.some.injEq] at hres
      subst hres
      exact fetchLoop_all r _ _ _ _
        (fun st1 offset kvs h => hr st1 _ _ _ offset _ kvs h) fuel _ _ _ _ out
        (fun _ h => absurd h (List.not_mem_nil _)) hout

/-- What `scoreInRange` says for the bound written by `strconv.FormatInt`. -/
theorem scoreInRange_toString (min m v : Int)
    (h : scoreInRange min (toString m) v = some true) : min ≤ v ∧ v ≤ m := by
  have hne : toString m ≠ "+inf" := by
    intro heq
    have h1 := parseInt_toString m
    rw [heq] at h1
    have h2 : parseInt "+inf" = none := by decide
    rw [h2] at h1
    cases h1
  unfold scoreInRange at h
  rw [if_neg hne, parseInt_toString] at h
  simpa using h

/-- The store `sortedSetStore index` is faithful. -/
theorem sortedSetStore_faithful (index : String → List (String × Int)) :
    RangeFaithful (sortedSetStore index) := by
  intro st key min max offset count kvs h e he
  simp only [sortedSetStore, rangeHits] at h
  split at h
  · cases h
  · simp only [Except.map, Except.ok.injEq] at h
    subst h
    have hsub : e ∈ (index key).filter (fun e => scoreInRange min max e.2 = some true) := by
      unfold limit at he
      split at he
      · cases he
      · split at he
        · exact List.mem_of_mem_drop he
        · exact List.mem_of_mem_drop (List.mem_of_mem_take he)
    simpa using (List.mem_filter.mp hsub).2

theorem GoMap.mem_of_get? {α : Type} (m : GoMap α) (k : String) (v : α)
    (h : m.get? k = some v) : ∃ e ∈ m, e.2 = v := by
  unfold GoMap.get? at h
  simp only [Option.map_eq_some'] at h
  obtain ⟨e, he, hv⟩ := h
  exact ⟨e, List.mem_of_find?_eq_some he, hv⟩

/-! ## Lemmas on the chunk loop against a stable store -/

/-- Assigning entries with pairwise distinct keys, none of them in the pool yet:
the pool grows by exactly these entries and `offset` is not decremented. -/
theorem mergeResults_fresh (results : GoMap Int) :
    ∀ (pool : GoMap Int) (offset : Int),
      (∀ e ∈ results, pool.has e.1 = false) → (results.map Prod.fst).Nodup →
      mergeResults results pool offset = (pool ++ results, offset) := by
  induction results with
  | nil => intro pool offset _ _; simp [mergeResults]
  | cons x rest ih =>
    intro pool offset hfresh hnd
    have hx : pool.has x.1 = false := hfresh x (List.mem_cons_self _ _)
    rw [List.map_cons, List.nodup_cons] at hnd
    have hstep : mergeResults (x :: rest) pool offset =
        mergeResults rest (GoMap.set pool x.1 x.2) offset := by
      simp [mergeResults, hx]
    rw [hstep, GoMap.set_of_not_has pool x.1 x.2 hx]
    rw [ih (pool ++ [(x.1, x.2)]) offset ?_ hnd.2]
    · simp
    · intro e he
      rw [GoMap.has_append_singleton, hfresh e (List.mem_cons_of_mem _ he)]
      simp only [Bool.false_or, beq_eq_false_iff_ne]
      intro heq
      exact hnd.1 (heq ▸ List.mem_map_of_mem Prod.fst he)

/-- A reply with pairwise distinct members converts to itself. -/
theorem int64Map_nodup (kvs : List (String × Int)) (hnd : (kvs.map Prod.fst).Nodup) :
    (int64Map (.ok kvs)).1 = kvs := by
  have h := mergeResults_fresh kvs [] 0 (fun _ _ => rfl) hnd
  have h1 := mergeResults_fst kvs [] 0
  rw [h] at h1
  simp only [int64Map]
  rw [← h1]
  simp

/-- One fetch against a stable store: started at offset `o` with the first `o`
entries in the pool, the merge gives the first `o + c` entries and the offset
`o + c`. -/
theorem mergeResults_chunk (entries : List (String × Int)) (o c : Nat) (offset : Int)
    (hdistinct : (entries.map Prod.fst).Nodup) :
    mergeResults (int64Map (.ok ((entries.drop o).take c))).1 (entries.take o) offset =
      (entries.take (o + c), offset) := by
  have hsub : ((entries.drop o).take c).Sublist entries :=
    (List.take_sublist _ _).trans (List.drop_sublist _ _)
  have hnd : (((entries.drop o).take c).map Prod.fst).Nodup :=
    hdistinct.sublist (hsub.map Prod.fst)
  rw [int64Map_nodup _ hnd, mergeResults_fresh _ _ _ ?_ hnd, ← List.take_add]
  intro e he
  have hsplit : (entries.take o ++ entries.drop o).map Prod.fst = entries.map Prod.fst := by
    rw [List.take_append_drop]
  rw [← hsplit, List.map_append, List.nodup_append] at hdistinct
  have hdrop : e.1 ∈ (entries.drop o).map Prod.fst :=
    List.mem_map_of_mem Prod.fst (List.mem_of_mem_take he)
  cases hh : GoMap.has (entries.take o) e.1 with
  | false => rfl
  | true =>
    have hkey : e.1 ∈ GoMap.keys (entries.take o) := (GoMap.mem_keys_iff_has _ _).mpr hh
    exact absurd hdrop (fun hd => hdistinct.2.2 hkey hd)

/-- The chunk loop against a stable store: started at offset `o` with the first
`o` of the `n` entries in the pool, it makes `(n - o) / c + 1` fetches, at
offsets `o`, `o + c`, ..., and returns all the entries. -/
theorem fetchLoop_stable {σ : Type} (r : Redis σ) (f : FilterSpec) (maxv : String)
    (entries : List (String × Int)) (c : Nat) (hc : 1 ≤ c)
    (hdistinct : (entries.map Prod.fst).Nodup)
    (hfetch : ∀ (st1 : σ) (o : Nat),
      (r.zrangebyscore st1 f.Field f.Minv maxv (o : Int) (c : Int)).1 =
        .ok ((entries.drop o).take c))
    (m : Nat) :
    ∀ (o fuel : Nat) (st : σ) (calls : List Cmd),
      o ≤ entries.length → (entries.length - o) / c = m → m + 1 ≤ fuel →
      ∃ st1, fetchLoop r (c : Int) f maxv fuel st calls (o : Int) (entries.take o) =
        some (entries, st1,
          calls ++ (List.range (m + 1)).map
            (fun j => Cmd.ZRANGEBYSCORE f.Field f.Minv maxv ((o + j * c : Nat) : Int) (c : Int))) := by
  induction m with
  | zero =>
    intro o fuel st calls ho hm hfuel
    obtain ⟨fuel1, rfl⟩ : ∃ k, fuel = k + 1 := ⟨fuel - 1, by omega⟩
    have hlen : (((entries.take o).length : Nat) : Int) = (o : Int) := by
      rw [List.length_take, Nat.min_eq_left ho]
    have hlt : entries.length - o < c := by
      rcases Nat.lt_or_ge (entries.length - o) c with h | h
      · exact h
      · have := Nat.div_pos h (by omega)
        omega
    rw [fetchLoop, if_pos hlen]
    simp only [hfetch, mergeResults_chunk entries o c _ hdistinct]
    rw [fetchLoop_exit]
    · rw [List.take_of_length_le (by omega)]
      exact ⟨(r.zrangebyscore st f.Field f.Minv maxv o c).2, by simp [List.range_succ]⟩
    · rw [List.length_take]
      have : min (o + c) entries.length = entries.length := by omega
      rw [this]
      omega
  | succ m ih =>
    intro o fuel st calls ho hm hfuel
    obtain ⟨fuel1, rfl⟩ : ∃ k, fuel = k + 1 := ⟨fuel - 1, by omega⟩
    have hlen : (((entries.take o).length : Nat) : Int) = (o : Int) := by
      rw [List.length_take, Nat.min_eq_left ho]
    have hge : c ≤ entries.length - o := by
      rcases Nat.lt_or_ge (entries.length - o) c with h | h
      · rw [Nat.div_eq_of_lt h] at hm
        omega
      · exact h
    have hm1 : (entries.length - (o + c)) / c = m := by
      rw [Nat.div_eq (entries.length - o) c, if_pos ⟨by omega, hge⟩] at hm
      have e : entries.length - (o + c) = entries.length - o - c := by omega
      rw [e]
      omega
    rw [fetchLoop, if_pos hlen]
    simp only [hfetch, mergeResults_chunk entries o c _ hdistinct]
    have hcast : (o : Int) + (c : Int) = ((o + c : Nat) : Int) := by push_cast; rfl
    rw [hcast]
    obtain ⟨st1, h1⟩ := ih (o + c) fuel1 (r.zrangebyscore st f.Field f.Minv maxv o c).2
      (calls ++ [Cmd.ZRANGEBYSCORE f.Field f.Minv maxv o c]) (by omega) hm1 (by omega)
    refine ⟨st1, ?_⟩
    have hmap : (List.range (m + 1)).map
          (fun j => Cmd.ZRANGEBYSCORE f.Field f.Minv maxv ((o + c + j * c : Nat) : Int) (c : Int)) =
        (List.range (m + 1)).map
          ((fun j => Cmd.ZRANGEBYSCORE f.Field f.Minv maxv ((o + j * c : Nat) : Int) (c : Int)) ∘
            Nat.succ) := by
      apply List.map_congr_left
      intro j _
      have e : o + c + j * c = o + (j + 1) * c := by
        rw [Nat.add_mul]
        omega
      simp only [Function.comp, Nat.succ_eq_add_one, e]
    rw [h1, List.range_succ_eq_map (m + 1), hmap]
    simp only [List.append_assoc, List.singleton_append, List.map_cons, List.map_map,
      Nat.zero_mul, Nat.add_zero]

/-! ## Theorems on the claims -/

/-- C1 (difference is exact) fails on the code: `difference` applied to
a = [x, y] and b = [x, y] returns [y], so y occurs in the result although it
occurs in b. After the swap that removes x the loop moves on to index 1 without
looking at the element it has just copied into index 0. -/
theorem difference_keeps_swapped_in_id :
    difference ["x", "y"] ["x", "y"] = ["y"] ∧
      ¬ ("y" ∈ difference ["x", "y"] ["x", "y"] ↔ "y" ∈ ["x", "y"] ∧ "y" ∉ ["x", "y"]) := by
  decide

/-- C2 (pagination completeness) fails on the code: for the scenario pool the
final player list is [B, C]; with result page size 2 (equal to the number of
players) and no failing send, the only page delivered carries [B], although its
stats announce 2 players, and the call returns success. A page is sent only at
the indices i with i % pageSize = 0, the players buffered after the last such
index are never sent. -/
theorem GetPlayerPool_omits_trailing_players :
    playerListOf (sortedSetStore scenarioIndex) ⟨10, 2, []⟩ noIgnored 5 () scenarioPool
        = some ["B", "C"] ∧
      (GetPlayerPool (sortedSetStore scenarioIndex) ⟨10, 2, []⟩ noIgnored 5 () scenarioPool
          okStream).map (fun o => (sentIds o, o.sent.map PlayerPool.Stats, o.exit))
        = some (["B"], [some ⟨2⟩], .returned none) := by
  decide

set_option maxRecDepth 1000000 in
/-- C3 (page sizing) fails on the code: 250 players with page size 100 are
delivered as 3 pages of sizes 1, 100, 100 (the last 49 players are not sent),
and a whole request for 5 players with page size 2 delivers pages of sizes
1, 2, 2 where the claim says 2, 2, 1. The number of pages is as claimed, their
sizes are not. -/
theorem GetPlayerPool_page_sizes_off :
    pageSizes (pageLoop okStream ratingPool 100 (pageCountOf 250 100) [] (manyIds 250) 0 []
        []).1 = [1, 100, 100] ∧
      (GetPlayerPool (sortedSetStore (crowdIndex 5)) ⟨1000, 2, []⟩ noIgnored 2 () ratingPool
          okStream).map (fun o => (pageSizes o.sent, sentIds o, o.exit))
        = some ([1, 2, 2], ["p0", "p1", "p2", "p3", "p4"], .returned none) := by
  decide

/-- C4 (multi-filter intersection) fails on the code: for a pool with the two
filters `rating` in [1000, 2000] and `rating` in [2400, 3000], both evaluated
without error, the id list after the intersection loop is [E], although E is
not a key of the first filter's result {C, A, B}. `filteredRosters` is keyed by
the field name, so the second filter replaces the first. -/
theorem GetPlayerPool_same_field_drops_filter :
    overlapOf (sortedSetStore scenarioIndex) ⟨10, 1, []⟩ 5 () sameFieldPool = some ["E"] ∧
      (sameFieldPool.Filters.map (fun f =>
          (applyFilter (sortedSetStore scenarioIndex) ⟨10, 1, []⟩ 5 () f).map
            (fun ret => (ret.results, ret.err))))
        = [some (some [("C", 1200), ("A", 1500), ("B", 1800)], none),
           some (some [("E", 2500)], none)] := by
  decide

/-- C5 (ignore-list aggregation returns the union) fails on the code: with one
configured list from which C is retrieved, `allIgnoreLists` returns no id at
all (the union is computed, its size 1 is logged, and it is dropped); the
scenario request then delivers both B and C. -/
theorem allIgnoreLists_returns_nothing :
    (match allIgnoreLists (fun _ => .ok ["C"]) ⟨10, 1, [("proposedplayers", "proposed")]⟩ with
      | .ok ilr => some ilr
      | .error _ => none) = some ⟨[], none, [1]⟩ ∧
      (GetPlayerPool (sortedSetStore scenarioIndex) ⟨10, 1, [("proposedplayers", "proposed")]⟩
          (fun _ => .ok ["C"]) 5 () scenarioPool okStream).map (fun o => (sentIds o, o.exit))
        = some (["B", "C"], .returned none) := by
  decide

/-- C6 (empty-filter short-circuit): let the pool's filters be `pre`, then `f`,
then `post`. If the filter loop runs through `pre` without leaving (every
earlier filter was evaluated and gave a result), reaching state `s`, and the
ZCOUNT of `f` in that state answers 0, and the send succeeds, then
`GetPlayerPool` delivers exactly one page, whose roster is empty, returns a nil
error, and the commands it issued are those for `pre` followed by the single
ZCOUNT of `f`: none for any filter of `post`. -/
theorem GetPlayerPool_empty_filter_short_circuit {σ : Type} (r : Redis σ) (cfg : Config)
    (retrieve : Retrieve) (fuel : Nat) (st : σ) (pool : PlayerPool) (stream : Stream)
    (pre post : List Filter) (f : Filter) (s : FilterLoopState σ)
    (hpool : pool.Filters = pre ++ f :: post)
    (hpre : filterLoop r cfg fuel pre ⟨[], [], [], [], st, []⟩ = some (.finished s))
    (hprobe : (r.zcount s.st f.FilterSpec.Field f.FilterSpec.Minv
      (maxvArg f.FilterSpec)).1 = .ok 0)
    (hsend : ∀ p, stream 0 p = none) :
    ∃ page,
      GetPlayerPool r cfg retrieve fuel st pool stream =
        some ⟨[page],
          s.calls ++ [Cmd.ZCOUNT f.FilterSpec.Field f.FilterSpec.Minv (maxvArg f.FilterSpec)],
          .returned none⟩ ∧
      page.Roster = [] ∧ page.Id = pool.Id ∧ page.Stats = some ⟨0⟩ := by
  have hf := applyFilter_probe_rejected r cfg fuel s.st f 0 hprobe (Or.inl rfl)
  have hloop := filterLoop_append r cfg fuel pre (f :: post) _ s hpre
  rw [filterLoop_cons, hf] at hloop
  simp only [Option.isSome_some, Option.getD_none, List.length_nil, and_self, if_true]
    at hloop
  refine ⟨{ pool with
      Filters := s.filters ++ { f with Stats := some ⟨0⟩ } :: post
      Stats := some ⟨0⟩
      Roster := [] }, ?_, rfl, rfl, rfl⟩
  simp only [GetPlayerPool, hpool, hloop, hsend]
  rfl

/-- C6, at a concrete request: `rating` in [1000, 2000] matches three players,
`region` in [3, 3] matches none, and a third filter follows. One page with an
empty roster is delivered and the third filter is never queried. -/
theorem GetPlayerPool_empty_filter_short_circuit_witness :
    ∃ page,
      GetPlayerPool (sortedSetStore scenarioIndex) ⟨10, 1, []⟩ noIgnored 5 ()
          { Id := "pool"
            Filters := [⟨"f1", ⟨"rating", 1000, 2000⟩, none⟩] ++
              (⟨"f2", ⟨"region", 3, 3⟩, none⟩ : Filter) :: [⟨"f3", ⟨"rating", 1, 9000⟩, none⟩]
            Stats := none
            Roster := [] } okStream =
        some ⟨[page],
          [Cmd.ZCOUNT "rating" 1000 "2000", Cmd.ZRANGEBYSCORE "rating" 1000 "2000" 0 10] ++
            [Cmd.ZCOUNT "region" 3 (maxvArg ⟨"region", 3, 3⟩)],
          .returned none⟩ ∧
      page.Roster = [] ∧ page.Id = "pool" ∧ page.Stats = some ⟨0⟩ :=
  GetPlayerPool_empty_filter_short_circuit (sortedSetStore scenarioIndex) ⟨10, 1, []⟩ noIgnored 5
    () _ okStream [⟨"f1", ⟨"rating", 1000, 2000⟩, none⟩] [⟨"f3", ⟨"rating", 1, 9000⟩, none⟩]
    ⟨"f2", ⟨"region", 3, 3⟩, none⟩
    ⟨[⟨"f1", ⟨"rating", 1000, 2000⟩, some ⟨3⟩⟩],
      [("rating", ["C", "A", "B"])],
      [("rating", [("C", 1200), ("A", 1500), ("B", 1800)])],
      ["C", "A", "B"], (),
      [Cmd.ZCOUNT "rating" 1000 "2000", Cmd.ZRANGEBYSCORE "rating" 1000 "2000" 0 10]⟩
    rfl rfl rfl (fun _ => rfl)

/-- C7 (cardinality guardrail): when the ZCOUNT probe succeeds with count `c`,
then for every bound on the number of fetches: `applyFilter` returns an error
if and only if `c = 0` or `c > 500000`; in that case it returns the nil map and
has issued no range fetch; and for `1 <= c <= 500000` every return of
`applyFilter` carries a nil error and a map, was preceded by the range fetch at
offset 0, and the count was logged as a warning exactly when `c >= 100000`.
Moreover, for `1 <= c <= 500000` the call does proceed to fetch: without room
for a fetch nothing is returned; with room for `fuel + 1` fetches the call is
the chunk loop continued, with room for `fuel` more, from the state after the
range fetch at offset 0 (connection state after that fetch, command log ZCOUNT
then that fetch, pool and offset as merged from its reply); and whenever that
first reply leaves `len(pool)` different from `offset`, the call returns that
pool with a nil error. -/
theorem applyFilter_guardrail {σ : Type} (r : Redis σ) (cfg : Config) (fuel : Nat) (st : σ)
    (filter : Filter) (c : Int)
    (hprobe : (r.zcount st filter.FilterSpec.Field filter.FilterSpec.Minv
      (maxvArg filter.FilterSpec)).1 = .ok c) :
    ((∃ ret, applyFilter r cfg fuel st filter = some ret ∧ ret.err.isSome) ↔
        (c = 0 ∨ c > 500000)) ∧
      ((c = 0 ∨ c > 500000) →
        ∃ ret, applyFilter r cfg fuel st filter = some ret ∧ ret.results = none ∧
          ret.err.isSome ∧
          ret.calls = [Cmd.ZCOUNT filter.FilterSpec.Field filter.FilterSpec.Minv
            (maxvArg filter.FilterSpec)]) ∧
      ((1 ≤ c ∧ c ≤ 500000) →
        ∀ ret, applyFilter r cfg fuel st filter = some ret →
          ret.err = none ∧ ret.results.isSome ∧
          ret.countLog = some (if c < 100000 then CountLog.info else CountLog.warn) ∧
          ∃ tail, ret.calls =
            Cmd.ZCOUNT filter.FilterSpec.Field filter.FilterSpec.Minv
                (maxvArg filter.FilterSpec) ::
              Cmd.ZRANGEBYSCORE filter.FilterSpec.Field filter.FilterSpec.Minv
                (maxvArg filter.FilterSpec) 0 cfg.queryArgsCount :: tail) ∧
      ((1 ≤ c ∧ c ≤ 500000) →
        let f := filter.FilterSpec
        let probe := r.zcount st f.Field f.Minv (maxvArg f)
        let reply := r.zrangebyscore probe.2 f.Field f.Minv (maxvArg f) 0 cfg.queryArgsCount
        let merged := mergeResults (int64Map reply.1).1 [] (0 + cfg.queryArgsCount)
        let calls := [Cmd.ZCOUNT f.Field f.Minv (maxvArg f),
          Cmd.ZRANGEBYSCORE f.Field f.Minv (maxvArg f) 0 cfg.queryArgsCount]
        let lvl := if c < 100000 then CountLog.info else CountLog.warn
        applyFilter r cfg 0 st filter = none ∧
        applyFilter r cfg (fuel + 1) st filter =
          (fetchLoop r cfg.queryArgsCount f (maxvArg f) fuel reply.2 calls merged.2
            merged.1).map (fun out => ⟨some out.1, none, out.2.1, out.2.2, some lvl⟩) ∧
        ((merged.1.length : Int) ≠ merged.2 →
          applyFilter r cfg (fuel + 1) st filter =
            some ⟨some merged.1, none, reply.2, calls, some lvl⟩)) := by
  have hacc : ¬ (c = 0 ∨ c > 500000) → ∀ ret, applyFilter r cfg fuel st filter = some ret →
      ret.err = none ∧ ret.results.isSome ∧
      ret.countLog = some (if c < 100000 then CountLog.info else CountLog.warn) ∧
      ∃ tail, ret.calls =
        Cmd.ZCOUNT filter.FilterSpec.Field filter.FilterSpec.Minv
            (maxvArg filter.FilterSpec) ::
          Cmd.ZRANGEBYSCORE filter.FilterSpec.Field filter.FilterSpec.Minv
            (maxvArg filter.FilterSpec) 0 cfg.queryArgsCount :: tail := by
    intro hc ret hret
    rw [applyFilter_probe_accepted r cfg fuel st filter c hprobe hc] at hret
    simp only [Option.map_eq_some'] at hret
    obtain ⟨out, hout, rfl⟩ := hret
    obtain ⟨tail, ht⟩ := fetchLoop_first_fetch r _ _ _ fuel _ _ out hout
    exact ⟨rfl, rfl, rfl, tail, by simpa using ht⟩
  refine ⟨⟨?_, ?_⟩, ?_, ?_, ?_⟩
  · rintro ⟨ret, hret, herr⟩
    by_contra hc
    have h := (hacc hc ret hret).1
    simp [h] at herr
  · intro hc
    exact ⟨_, applyFilter_probe_rejected r cfg fuel st filter c hprobe hc, rfl⟩
  · intro hc
    exact ⟨_, applyFilter_probe_rejected r cfg fuel st filter c hprobe hc, rfl, rfl, rfl⟩
  · intro hc
    exact hacc (by omega)
  · intro hc
    have hstep : applyFilter r cfg (fuel + 1) st filter =
        (fetchLoop r cfg.queryArgsCount filter.FilterSpec (maxvArg filter.FilterSpec) fuel
          (r.zrangebyscore
            (r.zcount st filter.FilterSpec.Field filter.FilterSpec.Minv
              (maxvArg filter.FilterSpec)).2
            filter.FilterSpec.Field filter.FilterSpec.Minv (maxvArg filter.FilterSpec) 0
            cfg.queryArgsCount).2
          [Cmd.ZCOUNT filter.FilterSpec.Field filter.FilterSpec.Minv
              (maxvArg filter.FilterSpec),
            Cmd.ZRANGEBYSCORE filter.FilterSpec.Field filter.FilterSpec.Minv
              (maxvArg filter.FilterSpec) 0 cfg.queryArgsCount]
          (mergeResults
            (int64Map (r.zrangebyscore
              (r.zcount st filter.FilterSpec.Field filter.FilterSpec.Minv
                (maxvArg filter.FilterSpec)).2
              filter.FilterSpec.Field filter.FilterSpec.Minv (maxvArg filter.FilterSpec) 0
              cfg.queryArgsCount).1).1 [] (0 + cfg.queryArgsCount)).2
          (mergeResults
            (int64Map (r.zrangebyscore
              (r.zcount st filter.FilterSpec.Field filter.FilterSpec.Minv
                (maxvArg filter.FilterSpec)).2
              filter.FilterSpec.Field filter.FilterSpec.Minv (maxvArg filter.FilterSpec) 0
              cfg.queryArgsCount).1).1 [] (0 + cfg.queryArgsCount)).1).map
          (fun out => ⟨some out.1, none, out.2.1, out.2.2,
            some (if c < 100000 then CountLog.info else CountLog.warn)⟩) := by
      rw [applyFilter_probe_accepted r cfg (fuel + 1) st filter c hprobe (by omega)]
      rw [fetchLoop]
      simp only [List.length_nil, Nat.cast_zero, if_true, List.singleton_append]
    refine ⟨?_, hstep, ?_⟩
    · rw [applyFilter_probe_accepted r cfg 0 st filter c hprobe (by omega)]
      simp [fetchLoop]
    · intro hne
      rw [hstep, fetchLoop_exit _ _ _ _ _ _ _ _ _ hne]
      rfl

/-- C7, at concrete requests. The probe for `rating` in [1000, 2000] answers 3:
`applyFilter` fetches and returns the three members with a nil error. Against
a store whose probe answers exactly 500000 and whose range fetch answers one
short page, `applyFilter` fetches at offset 0 and returns that page with a nil
error, the count being logged as a warning. -/
theorem applyFilter_guardrail_witness :
    applyFilter (sortedSetStore scenarioIndex) ⟨10, 1, []⟩ (4 + 1) ()
        ⟨"f1", ⟨"rating", 1000, 2000⟩, none⟩
      = some ⟨some [("C", 1200), ("A", 1500), ("B", 1800)], none, (),
          [Cmd.ZCOUNT "rating" 1000 "2000", Cmd.ZRANGEBYSCORE "rating" 1000 "2000" 0 10],
          some CountLog.info⟩ ∧
    applyFilter (cannedStore 500000 [("C", 1200)]) ⟨10, 1, []⟩ (0 + 1) ()
        ⟨"f1", ⟨"rating", 1000, 2000⟩, none⟩
      = some ⟨some [("C", 1200)], none, (),
          [Cmd.ZCOUNT "rating" 1000 "2000", Cmd.ZRANGEBYSCORE "rating" 1000 "2000" 0 10],
          some CountLog.warn⟩ ∧
    ((∃ ret, applyFilter (sortedSetStore scenarioIndex) ⟨10, 1, []⟩ 5 ()
        ⟨"f1", ⟨"rating", 1000, 2000⟩, none⟩ = some ret ∧ ret.err.isSome) ↔
      ((3 : Int) = 0 ∨ (3 : Int) > 500000)) :=
  ⟨((applyFilter_guardrail (sortedSetStore scenarioIndex) ⟨10, 1, []⟩ 4 ()
      ⟨"f1", ⟨"rating", 1000, 2000⟩, none⟩ 3 rfl).2.2.2 (by decide)).2.2 (by decide),
    ((applyFilter_guardrail (cannedStore 500000 [("C", 1200)]) ⟨10, 1, []⟩ 0 ()
      ⟨"f1", ⟨"rating", 1000, 2000⟩, none⟩ 500000 rfl).2.2.2 (by decide)).2.2 (by decide),
    (applyFilter_guardrail (sortedSetStore scenarioIndex) ⟨10, 1, []⟩ 5 ()
      ⟨"f1", ⟨"rating", 1000, 2000⟩, none⟩ 3 rfl).1⟩

/-- C8 (no partial FilterResult on store failure) fails on the code: with fetch
page size 2 and a connection that breaks at the second range fetch,
`applyFilter` for `rating` in [1000, 2000] (three members) returns the map of
the first chunk {C, A} with a nil error; when the first fetch already fails it
returns the empty map with a nil error. -/
theorem applyFilter_returns_partial_result :
    (applyFilter (flakyStore scenarioIndex 1) ⟨2, 1, []⟩ 5 0
        ⟨"f1", ⟨"rating", 1000, 2000⟩, none⟩).map (fun ret => (ret.results, ret.err, ret.calls))
      = some (some [("C", 1200), ("A", 1500)], none,
          [Cmd.ZCOUNT "rating" 1000 "2000", Cmd.ZRANGEBYSCORE "rating" 1000 "2000" 0 2,
           Cmd.ZRANGEBYSCORE "rating" 1000 "2000" 2 2]) ∧
      (applyFilter (flakyStore scenarioIndex 0) ⟨2, 1, []⟩ 5 0
        ⟨"f1", ⟨"rating", 1000, 2000⟩, none⟩).map (fun ret => (ret.results, ret.err))
      = some (some [], none) := by
  decide

/-- C9 (a final page is always sent) fails on the code: for a pool without
filters, and for a pool whose two filters both succeed and match disjoint sets,
with no failing send, `GetPlayerPool` returns success without having sent any
page. -/
theorem GetPlayerPool_empty_list_sends_no_page :
    GetPlayerPool (sortedSetStore scenarioIndex) ⟨10, 1, []⟩ noIgnored 5 () noFilterPool okStream
        = some ⟨[], [], .returned none⟩ ∧
      (GetPlayerPool (sortedSetStore scenarioIndex) ⟨10, 1, []⟩ noIgnored 5 () disjointPool
          okStream).map (fun o => (o.sent, o.exit)) = some ([], .returned none) ∧
      (disjointPool.Filters.map (fun f =>
          (applyFilter (sortedSetStore scenarioIndex) ⟨10, 1, []⟩ 5 () f).map
            (fun ret => (ret.results, ret.err))))
        = [some (some [("E", 2500)], none),
           some (some [("B", 1), ("C", 1), ("D", 1)], none)] := by
  decide

/-- C10 (store failures fail the request) fails on the code: when the ZCOUNT of
the first filter fails at the transport, `GetPlayerPool` sends one page with an
empty roster and returns a nil error. -/
theorem GetPlayerPool_store_error_reported_as_success :
    (applyFilter downStore ⟨10, 1, []⟩ 5 () ⟨"f1", ⟨"rating", 1000, 2000⟩, none⟩).map
        (fun ret => (ret.results, ret.err))
      = some (none, some "dial tcp: connection refused") ∧
      (GetPlayerPool downStore ⟨10, 1, []⟩ noIgnored 5 () scenarioPool okStream).map
        (fun o => (o.sent.map PlayerPool.Roster, o.calls, o.exit))
      = some ([[]], [Cmd.ZCOUNT "rating" 1000 "2000"], .returned none) := by
  decide

/-- C11 fails as stated: the filter `rating` in [-100, 0] is bounded with
minv <= maxv, the store is faithful, and `applyFilter` returns the map
{C: 1200, A: 1500, B: 1800, E: 2500}, none of whose values is at most 0. The
maximum 0 is sent as `"+inf"`. -/
theorem applyFilter_zero_max_is_unbounded :
    RangeFaithful (sortedSetStore scenarioIndex) ∧
      (applyFilter (sortedSetStore scenarioIndex) ⟨10, 1, []⟩ 5 ()
          ⟨"f1", ⟨"rating", -100, 0⟩, none⟩).map (fun ret => (ret.results, ret.err, ret.calls))
        = some (some [("C", 1200), ("A", 1500), ("B", 1800), ("E", 2500)], none,
            [Cmd.ZCOUNT "rating" (-100) "+inf",
             Cmd.ZRANGEBYSCORE "rating" (-100) "+inf" 0 10]) ∧
      ¬ (∀ ret results,
          applyFilter (sortedSetStore scenarioIndex) ⟨10, 1, []⟩ 5 ()
            ⟨"f1", ⟨"rating", -100, 0⟩, none⟩ = some ret →
          ret.results = some results →
          ∀ id v, results.get? id = some v → (-100 : Int) ≤ v ∧ v ≤ 0) := by
  refine ⟨sortedSetStore_faithful scenarioIndex, by decide, ?_⟩
  intro h
  have h1 := h
    ⟨some [("C", 1200), ("A", 1500), ("B", 1800), ("E", 2500)], none, (),
      [Cmd.ZCOUNT "rating" (-100) "+inf", Cmd.ZRANGEBYSCORE "rating" (-100) "+inf" 0 10],
      some CountLog.info⟩
    [("C", 1200), ("A", 1500), ("B", 1800), ("E", 2500)] rfl rfl "C" 1200 rfl
  omega

/-- C11, amended to a maximum other than 0: for every filter with
`Minv <= Maxv` and `Maxv` not 0, evaluated against a store that answers range
fetches faithfully for the bounds it is sent, every id in a map returned by
`applyFilter` is mapped to a value `v` with `Minv <= v <= Maxv`. -/
theorem applyFilter_range_sound {σ : Type} (r : Redis σ) (cfg : Config) (fuel : Nat) (st : σ)
    (filter : Filter) (ret : FilterReturn σ) (results : GoMap Int)
    (hr : RangeFaithful r)
    (_hle : filter.FilterSpec.Minv ≤ filter.FilterSpec.Maxv)
    (hmax : filter.FilterSpec.Maxv ≠ 0)
    (hret : applyFilter r cfg fuel st filter = some ret)
    (hres : ret.results = some results) :
    ∀ id v, results.get? id = some v →
      filter.FilterSpec.Minv ≤ v ∧ v ≤ filter.FilterSpec.Maxv := by
  intro id v hget
  obtain ⟨e, he, rfl⟩ := GoMap.mem_of_get? results id v hget
  have h := applyFilter_results_in_sent_range r hr cfg fuel st filter ret results hret hres e he
  rw [maxvArg, if_neg hmax] at h
  exact scoreInRange_toString _ _ _ h

/-- C11 amended, at a concrete filter: `rating` in [1000, 2000] against the
scenario index returns {C: 1200, A: 1500, B: 1800}, and B is mapped to 1800. -/
theorem applyFilter_range_sound_witness :
    (applyFilter (sortedSetStore scenarioIndex) ⟨10, 1, []⟩ 5 ()
        ⟨"f1", ⟨"rating", 1000, 2000⟩, none⟩).map (fun ret => ret.results)
      = some (some [("C", 1200), ("A", 1500), ("B", 1800)]) ∧
      GoMap.get? [("C", (1200 : Int)), ("A", 1500), ("B", 1800)] "B" = some 1800 ∧
      ((1000 : Int) ≤ 1800 ∧ (1800 : Int) ≤ 2000) :=
  ⟨by decide, rfl,
    applyFilter_range_sound (sortedSetStore scenarioIndex) ⟨10, 1, []⟩ 5 ()
      ⟨"f1", ⟨"rating", 1000, 2000⟩, none⟩
      ⟨some [("C", 1200), ("A", 1500), ("B", 1800)], none, (),
        [Cmd.ZCOUNT "rating" 1000 "2000", Cmd.ZRANGEBYSCORE "rating" 1000 "2000" 0 10],
        some CountLog.info⟩
      [("C", 1200), ("A", 1500), ("B", 1800)]
      (sortedSetStore_faithful scenarioIndex) (by decide) (by decide) rfl rfl "B" 1800 rfl⟩

/-- C12 (chunked fetch is complete and terminates on a stable store): let the
fetch page size be `c >= 1` and let the store hold, for the filter's query, a
fixed sequence `entries` of `n` entries with pairwise distinct ids,
`1 <= n <= 500000`: the probe answers `n` and, in every connection state, the
range fetch at `(offset, c)` answers the entries `offset .. min(offset + c, n) - 1`.
Then, given room for `n / c + 1` fetches, `applyFilter` returns with a nil error
and the map of exactly these entries, having issued the probe and then exactly
`n / c + 1` range fetches, at offsets `0, c, 2c, ...`. -/
theorem applyFilter_stable_store_complete {σ : Type} (r : Redis σ) (cfg : Config) (fuel : Nat)
    (st : σ) (filter : Filter) (entries : List (String × Int)) (c : Nat)
    (hc : 1 ≤ c) (hcfg : cfg.queryArgsCount = (c : Int))
    (hn : 1 ≤ entries.length ∧ entries.length ≤ 500000)
    (hdistinct : (entries.map Prod.fst).Nodup)
    (hprobe : (r.zcount st filter.FilterSpec.Field filter.FilterSpec.Minv
      (maxvArg filter.FilterSpec)).1 = .ok (entries.length : Int))
    (hfetch : ∀ (st1 : σ) (o : Nat),
      (r.zrangebyscore st1 filter.FilterSpec.Field filter.FilterSpec.Minv
        (maxvArg filter.FilterSpec) (o : Int) (c : Int)).1 = .ok ((entries.drop o).take c))
    (hfuel : entries.length / c + 1 ≤ fuel) :
    ∃ ret, applyFilter r cfg fuel st filter = some ret ∧ ret.err = none ∧
      ret.results = some entries ∧
      ret.calls =
        Cmd.ZCOUNT filter.FilterSpec.Field filter.FilterSpec.Minv (maxvArg filter.FilterSpec) ::
          (List.range (entries.length / c + 1)).map
            (fun j => Cmd.ZRANGEBYSCORE filter.FilterSpec.Field filter.FilterSpec.Minv
              (maxvArg filter.FilterSpec) ((j * c : Nat) : Int) (c : Int)) := by
  rw [applyFilter_probe_accepted r cfg fuel st filter _ hprobe (by omega), hcfg]
  obtain ⟨st1, h⟩ := fetchLoop_stable r filter.FilterSpec (maxvArg filter.FilterSpec) entries c
    hc hdistinct hfetch (entries.length / c) 0 fuel
    (r.zcount st filter.FilterSpec.Field filter.FilterSpec.Minv (maxvArg filter.FilterSpec)).2
    [Cmd.ZCOUNT filter.FilterSpec.Field filter.FilterSpec.Minv (maxvArg filter.FilterSpec)]
    (Nat.zero_le _) (by simp) hfuel
  simp only [List.take_zero, Nat.cast_zero, Nat.zero_add] at h
  rw [h]
  exact ⟨_, rfl, rfl, rfl, by simp⟩

/-- C12, at a concrete store: `rating` in [1000, 2000] holds the three entries
C, A, B; with fetch page size 2 `applyFilter` makes 3 / 2 + 1 = 2 range fetches,
at offsets 0 and 2, and returns the three entries. -/
theorem applyFilter_stable_store_complete_witness :
    ∃ ret, applyFilter (sortedSetStore scenarioIndex) ⟨2, 1, []⟩ 2 ()
        ⟨"f1", ⟨"rating", 1000, 2000⟩, none⟩ = some ret ∧ ret.err = none ∧
      ret.results = some [("C", 1200), ("A", 1500), ("B", 1800)] ∧
      ret.calls =
        Cmd.ZCOUNT "rating" 1000 (maxvArg ⟨"rating", 1000, 2000⟩) ::
          (List.range ([("C", (1200 : Int)), ("A", 1500), ("B", 1800)].length / 2 + 1)).map
            (fun j => Cmd.ZRANGEBYSCORE "rating" 1000 (maxvArg ⟨"rating", 1000, 2000⟩)
              ((j * 2 : Nat) : Int) ((2 : Nat) : Int)) :=
  applyFilter_stable_store_complete (sortedSetStore scenarioIndex) ⟨2, 1, []⟩ 2 ()
    ⟨"f1", ⟨"rating", 1000, 2000⟩, none⟩ [("C", 1200), ("A", 1500), ("B", 1800)] 2
    (by decide) rfl (by decide) (by decide) rfl
    (fun _ o => by
      have hhits : rangeHits (scenarioIndex "rating") 1000 (maxvArg ⟨"rating", 1000, 2000⟩) =
          .ok [("C", 1200), ("A", 1500), ("B", 1800)] := rfl
      simp [sortedSetStore, hhits, limit, Except.map])
    (by decide)

end OpenMatch
